import Mathlib

/-!
Fences of the virtio GPU driver: `drivers/gpu/drm/virtio/virtgpu_fence.c`.

A shallow embedding of the fence code of the virtio GPU driver, and theorems
about it.

* Pointers to fences are natural numbers (addresses); a nullable pointer is an
  `Option Nat`, `none` being `NULL`.
* The memory holding fences is `World.mem`; an address that holds no fence
  (never allocated, or freed by `kfree`) maps to `none`, and a function that
  dereferences such an address has no defined result (`none`, or
  `Outcome.fault` for the blocking wait).
* `u64` values are natural numbers below `2 ^ 64`; the only `u64` arithmetic of
  the file, `++sync_seq`, wraps explicitly.
* The blocking wait runs against the rest of the system (the interrupt handler
  and other threads change `last_seq` and `last_activity` while it runs), so
  every read it makes of shared state, and every outcome of the wait
  primitive, is supplied by an observation record, one per loop iteration.
-/

namespace VirtgpuFence

/-! ## Constants and helpers that live outside the file -/

/-- Constants which the file takes from `virtgpu_drv.h`, `virtio_gpu.h` and the
kernel configuration. Their declarations are not part of the source file, so
they are parameters of the embedding. -/
structure Consts where
  /-- the sentinel stored in `fence->seq` once the fence was seen signaled -/
  VIRTIO_GPU_FENCE_SIGNALED_SEQ : Nat
  /-- the lockup window, in jiffies -/
  VIRTIO_GPU_FENCE_JIFFIES_TIMEOUT : Nat
  /-- the header flag asking the device for a fence -/
  VIRTIO_GPU_FLAG_FENCE : Nat
  /-- width of `unsigned long`, the type of `jiffies` -/
  BITS_PER_LONG : Nat

/-- Value of `EINVAL` in the kernel's `errno-base.h`. -/
def EINVAL : Int := 22

/-- Value of `ENOMEM` in the kernel's `errno-base.h`. -/
def ENOMEM : Int := 12

/-- Modulus of `u64` arithmetic. -/
def U64_MOD : Nat := 2 ^ 64

/-- Modelled from the spec: `kref_init` of the kernel's `kref.h`, which is not
part of the source file ("initializes reference count to 1"). -/
def kref_init : Int := 1

/-- Modelled from the spec: `kref_get` of the kernel's `kref.h`, which is not
part of the source file ("increments reference count"). -/
def kref_get (refcount : Int) : Int := refcount + 1

/-- Modelled from the spec: the counting part of `kref_put` of the kernel's
`kref.h`, which is not part of the source file ("decrements reference count;
when it reaches zero, the object is destroyed"). Returns the new count and
whether the release function has to run. -/
def kref_put (refcount : Int) : Int × Bool :=
  (refcount - 1, decide (refcount - 1 = 0))

/-- The bytes, in memory order, of the `nbytes`-byte little-endian encoding of
`x` (`cpu_to_le32` for 4, `cpu_to_le64` for 8). -/
def cpu_to_le (nbytes : Nat) (x : Nat) : List Nat :=
  (List.range nbytes).map (fun i => x / 256 ^ i % 256)

/-- The number that a little-endian byte string encodes (`le32_to_cpu`,
`le64_to_cpu`). -/
def le_to_cpu (bytes : List Nat) : Nat :=
  bytes.foldr (fun b acc => b + 256 * acc) 0

/-- Bitwise or of two encoded words of the same size, the `|=` on an `__le32`
field: it acts byte by byte whatever the byte order of the CPU. -/
def le_or (a b : List Nat) : List Nat :=
  List.zipWith (fun x y => x ||| y) a b

/-- The macro `time_after(a, b)` of `jiffies.h` for words of `bits` bits:
`(long)(b - a) < 0`, the wrapped difference read as a signed number. -/
def time_after (bits : Nat) (a b : Nat) : Bool :=
  decide (2 ^ (bits - 1) ≤ (b + 2 ^ bits - a % 2 ^ bits) % 2 ^ bits)

/-! ## Data model -/

/-- The fence of `virtgpu_drv.h`: `struct kref kref`, the back pointer to the
device and the sequence number. -/
structure virtio_gpu_fence where
  kref : Int
  vgdev : Nat
  seq : Nat
deriving DecidableEq, Repr

/-- The event of the source file. `addr` is the address of the event, which is
what its callbacks receive; the fields `dev`, `file`, `fpriv_head` and `event`
are not used by the file, and the two callbacks are function pointers whose
calls are recorded in the log of `virtio_gpu_fence_event_process`. -/
structure virtio_gpu_fence_event where
  addr : Nat
  fence : Option Nat
deriving DecidableEq, Repr

/-- The fields of `vgdev->fence_drv` that the file uses. -/
structure virtio_gpu_fence_driver where
  last_seq : Nat
  sync_seq : Nat
  last_activity : Nat
  event_list : List virtio_gpu_fence_event
deriving DecidableEq, Repr

/-- The device, as far as the file looks into it. -/
structure virtio_gpu_device where
  fence_drv : virtio_gpu_fence_driver
deriving DecidableEq, Repr

/-- The two fields of `struct virtio_gpu_ctrl_hdr` that the file writes, as the
bytes they occupy in memory (`__le32 flags`, `__le64 fence_id`). -/
structure virtio_gpu_ctrl_hdr where
  flags : List Nat
  fence_id : List Nat
deriving DecidableEq, Repr

/-- Everything the non-blocking functions of the file read or write.
`destroyed` and `seq_reads` are ghost fields: the log of the calls of
`virtio_gpu_fence_destroy`, and the number of `atomic64_read`s of `last_seq`
made through `virtio_gpu_fence_signaled`. -/
structure World where
  devs : Nat → virtio_gpu_device
  mem : Nat → Option virtio_gpu_fence
  destroyed : List Nat
  seq_reads : Nat

/-- What a call of an event's function pointers, or the unlinking of an event,
leaves in the log of a drain. -/
inductive Call where
  | seq_done (event : Nat)
  | list_del (event : Nat)
  | cleanup (event : Nat)
deriving DecidableEq, Repr

/-- Whether a log entry is a call of one of the two callbacks. -/
def Call.isCallback : Call → Bool
  | Call.seq_done _ => true
  | Call.list_del _ => false
  | Call.cleanup _ => true

/-! ## Reference counting -/

/-- The release function: `kfree(fence)`. The address holds no fence
afterwards, and the call is logged. -/
def virtio_gpu_fence_destroy (fence : Nat) (w : World) : World :=
  { w with mem := Function.update w.mem fence none,
           destroyed := w.destroyed ++ [fence] }

/-- `virtio_gpu_fence_ref`: `kref_get(&fence->kref); return fence;`. The
argument is dereferenced without a test. -/
def virtio_gpu_fence_ref (fence : Option Nat) (w : World) :
    Option (Option Nat × World) :=
  match fence with
  | none => none
  | some p =>
    match w.mem p with
    | none => none
    | some f =>
      some (some p,
        { w with mem := Function.update w.mem p
                          (some { f with kref := kref_get f.kref }) })

/-- `virtio_gpu_fence_unref`. The argument is the content of the caller's
handle `*fence`; the first component of the result is its content afterwards. -/
def virtio_gpu_fence_unref (fence : Option Nat) (w : World) :
    Option (Option Nat × World) :=
  let tmp := fence
  match tmp with
  | none => some (none, w)
  | some p =>
    match w.mem p with
    | none => none
    | some f =>
      let w1 : World :=
        { w with mem := Function.update w.mem p
                          (some { f with kref := (kref_put f.kref).1 }) }
      if (kref_put f.kref).2 then some (none, virtio_gpu_fence_destroy p w1)
      else some (none, w1)

/-! ## Signaled tests -/

/-- `virtio_gpu_fence_seq_signaled`: `atomic64_read(&last_seq) >= seq`, an
unsigned comparison since `seq` is a `u64`. The read is counted. -/
def virtio_gpu_fence_seq_signaled (vgdev : Nat) (seq : Nat) (w : World) :
    Bool × World :=
  (if (w.devs vgdev).fence_drv.last_seq ≥ seq then true else false,
   { w with seq_reads := w.seq_reads + 1 })

/-- `virtio_gpu_fence_signaled`. -/
def virtio_gpu_fence_signaled (c : Consts) (fence : Option Nat) (w : World) :
    Option (Bool × World) :=
  match fence with
  | none => some (true, w)
  | some p =>
    match w.mem p with
    | none => none
    | some f =>
      if f.seq = c.VIRTIO_GPU_FENCE_SIGNALED_SEQ then some (true, w)
      else
        let res := virtio_gpu_fence_seq_signaled f.vgdev f.seq w
        let w1 : World := res.2
        if res.1 then
          some (true,
            { w1 with mem := Function.update w1.mem p
                        (some { f with seq := c.VIRTIO_GPU_FENCE_SIGNALED_SEQ }) })
        else some (false, w1)

/-! ## The blocking wait -/

/-- What `wait_event_timeout` or `wait_event_interruptible_timeout` leaves
behind: the value the macro returns, a `long`, and the last value its condition
assigned to `signaled`. The two macros are kernel code outside the file, so
their outcome is supplied by the observations. -/
structure WaitOutcome where
  r : Int
  signaled : Bool
deriving DecidableEq, Repr

/-- What one iteration of the loop of `virtio_gpu_fence_wait_seq` sees of the
shared state, in the order of its reads, and how the wait primitive answers when
called with `intr` and the timeout. -/
structure IterObs where
  /-- `atomic64_read(&last_seq)` in the loop condition (line 57) -/
  last_seq_cond : Nat
  /-- `jiffies` (line 59) -/
  jiffies : Nat
  /-- `last_activity` in `time_after` (line 60) -/
  last_activity_cmp : Nat
  /-- `last_activity` in the subtraction (line 63) -/
  last_activity_sub : Nat
  /-- `atomic64_read(&last_seq)` saved in `seq` (line 72) -/
  last_seq_snap : Nat
  /-- `last_activity` saved in the local `last_activity` (line 75) -/
  last_activity_snap : Nat
  /-- the wait primitive (lines 77 to 89), given `intr` and `timeout` -/
  wait_event : Bool → Nat → WaitOutcome
  /-- `atomic64_read(&last_seq)` after the wait (line 101) -/
  last_seq_recheck : Nat
  /-- `last_activity` after the wait (line 106) -/
  last_activity_recheck : Nat

/-- Lines 59 to 71: the timeout handed to the wait primitive, computed in
`unsigned long` arithmetic. -/
def wait_timeout (c : Consts) (jiffies last_activity_cmp last_activity_sub : Nat) :
    Nat :=
  let m := 2 ^ c.BITS_PER_LONG
  let timeout := (jiffies + m - c.VIRTIO_GPU_FENCE_JIFFIES_TIMEOUT % m) % m
  if time_after c.BITS_PER_LONG last_activity_cmp timeout then
    (last_activity_sub + m - timeout) % m
  else
    1

/-- The timeout of the iteration that observes `o`. -/
def IterObs.timeout (c : Consts) (o : IterObs) : Nat :=
  wait_timeout c o.jiffies o.last_activity_cmp o.last_activity_sub

/-- How one pass through the `while` of `virtio_gpu_fence_wait_seq` ends. -/
inductive Step where
  /-- the loop condition was false: the function returns 0 -/
  | exit
  /-- `return r` inside the body -/
  | ret (r : Int)
  /-- the body ended, or ran into a `continue`: the condition is tested again -/
  | again
deriving DecidableEq, Repr

/-- The conversion of the `long` that the wait primitive returns to the
`int r` of line 55 that receives it (lines 78 and 84): the value is reduced
modulo `2 ^ 32` into the range of a 32-bit `int`. -/
def long_to_int (x : Int) : Int :=
  (x + 2147483648) % 4294967296 - 2147483648

/-- One pass through the `while` of `virtio_gpu_fence_wait_seq`, lines 57 to
109. The local `r` is an `int`: it holds the result of the wait primitive after
the conversion `long_to_int`. -/
def wait_seq_iter (c : Consts) (target_seq : Nat) (intr : Bool) (o : IterObs) :
    Step :=
  if target_seq > o.last_seq_cond then
    let timeout := wait_timeout c o.jiffies o.last_activity_cmp o.last_activity_sub
    let seq := o.last_seq_snap
    let last_activity := o.last_activity_snap
    let out := o.wait_event intr timeout
    let r := long_to_int out.r
    if r < 0 then Step.ret r
    else if !out.signaled then
      if r ≠ 0 then Step.again
      else if seq ≠ o.last_seq_recheck then Step.again
      else if last_activity ≠ o.last_activity_recheck then Step.again
      else Step.again
    else Step.again
  else Step.exit

/-- The loop of `virtio_gpu_fence_wait_seq` over the observations of its
successive iterations. `waits` counts the calls of the wait primitive so far.
The result is `none` when the observations end with the function still inside
the loop; otherwise it is the return value and the number of calls of the wait
primitive. -/
def wait_seq_loop (c : Consts) (target_seq : Nat) (intr : Bool) :
    List IterObs → Nat → Option (Int × Nat)
  | [], _ => none
  | o :: rest, waits =>
    match wait_seq_iter c target_seq intr o with
    | Step.exit => some (0, waits)
    | Step.ret r => some (r, waits + 1)
    | Step.again => wait_seq_loop c target_seq intr rest (waits + 1)

/-- `virtio_gpu_fence_wait_seq`. `obs vgdev` is what the iterations observe of
the device `vgdev`. -/
def virtio_gpu_fence_wait_seq (c : Consts) (obs : Nat → List IterObs)
    (vgdev : Nat) (target_seq : Nat) (intr : Bool) : Option (Int × Nat) :=
  wait_seq_loop c target_seq intr (obs vgdev) 0

/-- How a call of the blocking `virtio_gpu_fence_wait` stands when the
observations end. -/
inductive Outcome (α : Type) where
  /-- the function returned -/
  | returned (a : α)
  /-- the function is still inside the loop of `virtio_gpu_fence_wait_seq` -/
  | blocked
  /-- the function dereferenced an address that holds no fence -/
  | fault

/-- `virtio_gpu_fence_wait`. The result holds the return value, the number of
calls of the wait primitive, and the world with the writes of the function
itself: the changes the rest of the system makes meanwhile are what the
observations report, and are not applied here. -/
def virtio_gpu_fence_wait (c : Consts) (obs : Nat → List IterObs)
    (fence : Option Nat) (intr : Bool) (w : World) :
    Outcome (Int × Nat × World) :=
  match fence with
  | none => Outcome.returned (-EINVAL, 0, w)
  | some p =>
    match w.mem p with
    | none => Outcome.fault
    | some f =>
      match virtio_gpu_fence_wait_seq c obs f.vgdev f.seq intr with
      | none => Outcome.blocked
      | some (r, waits) =>
        if r ≠ 0 then Outcome.returned (r, waits, w)
        else
          Outcome.returned (0, waits,
            { w with mem := Function.update w.mem p
                              (some { f with seq := c.VIRTIO_GPU_FENCE_SIGNALED_SEQ }) })

/-! ## Emitting a fence -/

/-- `virtio_gpu_fence_emit`. `kmalloc` is the result of the allocation: `none`
when it fails, otherwise the address of the new object. The result is the
return value, the command header, the content of the out parameter `*fence`
and the world. -/
def virtio_gpu_fence_emit (c : Consts) (vgdev : Nat)
    (cmd_hdr : virtio_gpu_ctrl_hdr) (kmalloc : Option Nat) (w : World) :
    Int × virtio_gpu_ctrl_hdr × Option Nat × World :=
  match kmalloc with
  | none => (-ENOMEM, cmd_hdr, none, w)
  | some p =>
    let dev := w.devs vgdev
    let sync_seq := (dev.fence_drv.sync_seq + 1) % U64_MOD
    let dev1 : virtio_gpu_device :=
      { dev with fence_drv := { dev.fence_drv with sync_seq := sync_seq } }
    let f : virtio_gpu_fence := { kref := kref_init, vgdev := vgdev, seq := sync_seq }
    let w1 : World :=
      { w with devs := Function.update w.devs vgdev dev1,
               mem := Function.update w.mem p (some f) }
    let hdr : virtio_gpu_ctrl_hdr :=
      { flags := le_or cmd_hdr.flags (cpu_to_le 4 c.VIRTIO_GPU_FLAG_FENCE),
        fence_id := cpu_to_le 8 f.seq }
    (0, hdr, some p, w1)

/-! ## Draining the event list -/

/-- The body of `list_for_each_entry_safe` in
`virtio_gpu_fence_event_process`, over the entries still to visit. The result
is the entries that stay linked, the log of callbacks and unlinkings, and the
world. The callbacks are function pointers of the event; their calls are
logged, and they are taken not to touch the list, the fences or the
counters. -/
def event_process_loop (c : Consts) :
    List virtio_gpu_fence_event → World →
      Option (List virtio_gpu_fence_event × List Call × World)
  | [], w => some ([], [], w)
  | fe :: rest, w =>
    match virtio_gpu_fence_signaled c fe.fence w with
    | none => none
    | some (true, w1) =>
      match event_process_loop c rest w1 with
      | none => none
      | some (kept, log, w2) =>
        some (kept,
          Call.seq_done fe.addr :: Call.list_del fe.addr :: Call.cleanup fe.addr :: log,
          w2)
    | some (false, w1) =>
      match event_process_loop c rest w1 with
      | none => none
      | some (kept, log, w2) => some (fe :: kept, log, w2)

/-- `virtio_gpu_fence_event_process`. The argument `last_seq` is not used by
the function; the spin lock is not modelled. The result is the log and the
world, in which the event list of `vdev` is what the loop left linked. -/
def virtio_gpu_fence_event_process (c : Consts) (vdev : Nat) (last_seq : Nat)
    (w : World) : Option (List Call × World) :=
  let _unused := last_seq
  match event_process_loop c (w.devs vdev).fence_drv.event_list w with
  | none => none
  | some (kept, log, w1) =>
    let dev := w1.devs vdev
    let dev1 : virtio_gpu_device :=
      { dev with fence_drv := { dev.fence_drv with event_list := kept } }
    some (log, { w1 with devs := Function.update w1.devs vdev dev1 })

/-- Whether `virtio_gpu_fence_signaled`, called in world `w` on the fence of
the event `fe`, reports the fence signaled. -/
def reports_signaled (c : Consts) (w : World) (fe : virtio_gpu_fence_event) : Bool :=
  match virtio_gpu_fence_signaled c fe.fence w with
  | some (b, _) => b
  | none => false

/-- The log entries of one fired event, in the order of lines 172 to 174. -/
def fired (fe : virtio_gpu_fence_event) : List Call :=
  [Call.seq_done fe.addr, Call.list_del fe.addr, Call.cleanup fe.addr]

/-- The two callback calls of one fired event. -/
def fired_callbacks (fe : virtio_gpu_fence_event) : List Call :=
  [Call.seq_done fe.addr, Call.cleanup fe.addr]

/-- Successive successful calls of `virtio_gpu_fence_emit` on the device
`vgdev`, one per pair of a command header and the address `kmalloc` returns.
The result lists, call by call, the sequence number found in the fence that the
call created, and gives the world after the last call. -/
def emit_seqs (c : Consts) (vgdev : Nat) :
    List (virtio_gpu_ctrl_hdr × Nat) → World → List (Option Nat) × World
  | [], w => ([], w)
  | (cmd_hdr, p) :: rest, w =>
    let w1 := (virtio_gpu_fence_emit c vgdev cmd_hdr (some p) w).2.2.2
    let s := (w1.mem p).map (fun f => f.seq)
    let res := emit_seqs c vgdev rest w1
    (s :: res.1, res.2)

/-- A call made through a handle on a fence: `virtio_gpu_fence_ref` or
`virtio_gpu_fence_unref`. -/
inductive RefOp where
  | ref
  | unref
deriving DecidableEq, Repr

/-- Successive calls of `virtio_gpu_fence_ref` and `virtio_gpu_fence_unref`,
each through a handle that holds the address `p`. The result is `none` when one
of the calls dereferences an address that holds no fence. -/
def ref_run (p : Nat) : List RefOp → World → Option World
  | [], w => some w
  | RefOp.ref :: rest, w =>
    match virtio_gpu_fence_ref (some p) w with
    | none => none
    | some (_, w1) => ref_run p rest w1
  | RefOp.unref :: rest, w =>
    match virtio_gpu_fence_unref (some p) w with
    | none => none
    | some (_, w1) => ref_run p rest w1

/-- The value of a word of `bits` bits read as a signed number (a cast to
`long`). -/
def to_long (bits : Nat) (x : Nat) : Int :=
  if x % 2 ^ bits < 2 ^ (bits - 1) then ((x % 2 ^ bits : Nat) : Int)
  else ((x % 2 ^ bits : Nat) : Int) - ((2 ^ bits : Nat) : Int)

/-- The invariant of the counters of device `d`: no sequence number is
completed before it was assigned, `last_seq <= sync_seq`. -/
def fence_inv (w : World) (d : Nat) : Prop :=
  (w.devs d).fence_drv.last_seq ≤ (w.devs d).fence_drv.sync_seq

/-- Modelled from the spec: the counter update of the completion path
(`advance_to`), which is not part of the source file: "sets
`last_completed = max(last_completed, seq)` and stamps `last_activity = now()`". -/
def advance_to (vgdev seq now : Nat) (w : World) : World :=
  let dev := w.devs vgdev
  let dev1 : virtio_gpu_device :=
    { dev with fence_drv := { dev.fence_drv with
        last_seq := max dev.fence_drv.last_seq seq, last_activity := now } }
  { w with devs := Function.update w.devs vgdev dev1 }

/-- What happens between and around drains: the counter of some device
advances, or the event list is drained. -/
inductive DrainStep where
  | advance (vgdev seq now : Nat)
  | drain
deriving DecidableEq, Repr

/-- Successive advances of counters and calls of
`virtio_gpu_fence_event_process` on the device `vdev`. The result is the
concatenation of the logs of the drains and the final world. -/
def drain_run (c : Consts) (vdev : Nat) : List DrainStep → World → Option (List Call × World)
  | [], w => some ([], w)
  | DrainStep.advance d seq now :: rest, w => drain_run c vdev rest (advance_to d seq now w)
  | DrainStep.drain :: rest, w =>
    match virtio_gpu_fence_event_process c vdev (w.devs vdev).fence_drv.last_seq w with
    | none => none
    | some (log, w1) =>
      match drain_run c vdev rest w1 with
      | none => none
      | some (log2, w2) => some (log ++ log2, w2)

/-! ## Concrete states for the examples -/

/-- Constants as the radeon driver, from which the file descends, has them: the
sentinel is 0 and the window half a second at `HZ = 250`. -/
def consts0 : Consts :=
  { VIRTIO_GPU_FENCE_SIGNALED_SEQ := 0,
    VIRTIO_GPU_FENCE_JIFFIES_TIMEOUT := 125,
    VIRTIO_GPU_FLAG_FENCE := 1,
    BITS_PER_LONG := 64 }

/-- A device with the given counters, idle since jiffy 0, with the given
events. -/
def mkDev (last_seq sync_seq : Nat) (events : List virtio_gpu_fence_event) :
    virtio_gpu_device :=
  { fence_drv := { last_seq := last_seq, sync_seq := sync_seq,
                   last_activity := 0, event_list := events } }

/-- A world in which every device is `dev`, with fence A (sequence 1) at
address 1 and fence B (sequence 2) at address 2, both of device 0 with one
reference, and no other fence. -/
def worldAB (dev : virtio_gpu_device) : World :=
  { devs := fun _ => dev,
    mem := fun p =>
      if p = 1 then some { kref := 1, vgdev := 0, seq := 1 }
      else if p = 2 then some { kref := 1, vgdev := 0, seq := 2 }
      else none,
    destroyed := [],
    seq_reads := 0 }

/-- The world `worldAB (mkDev 1 2 [])` after `virtio_gpu_fence_signaled` has
seen fence A signaled: the sentinel 0 is stored in A, one read is counted. -/
def worldA_seen : World :=
  { devs := fun _ => mkDev 1 2 [],
    mem := Function.update (worldAB (mkDev 1 2 [])).mem 1
             (some { kref := 1, vgdev := 0, seq := 0 }),
    destroyed := [],
    seq_reads := 1 }

/-- The world `worldAB (mkDev 0 2 [])` after a successful wait on fence A: the
sentinel 0 is stored in A. -/
def worldA_waited : World :=
  { devs := fun _ => mkDev 0 2 [],
    mem := Function.update (worldAB (mkDev 0 2 [])).mem 1
             (some { kref := 1, vgdev := 0, seq := 0 }),
    destroyed := [],
    seq_reads := 0 }

/-- Four events: 10 bound to fence B, 11 to fence A, 12 to no fence, 13 to
fence A again. -/
def eventsBANA : List virtio_gpu_fence_event :=
  [{ addr := 10, fence := some 2 }, { addr := 11, fence := some 1 },
   { addr := 12, fence := none }, { addr := 13, fence := some 1 }]

/-- A command header with no flag set and no fence id. -/
def hdr0 : virtio_gpu_ctrl_hdr :=
  { flags := [0, 0, 0, 0], fence_id := [0, 0, 0, 0, 0, 0, 0, 0] }

/-- An iteration that finds `last_seq = 0` and in which the wait primitive
returns 5 remaining jiffies with its condition true. -/
def wakeObs : IterObs :=
  { last_seq_cond := 0, jiffies := 100,
    last_activity_cmp := 90, last_activity_sub := 90,
    last_seq_snap := 0, last_activity_snap := 90,
    wait_event := fun _ _ => { r := 5, signaled := true },
    last_seq_recheck := 1, last_activity_recheck := 100 }

/-- A loop test that finds `last_seq = 1`. The other fields are not read when
the target is 1. -/
def doneObs : IterObs :=
  { last_seq_cond := 1, jiffies := 101,
    last_activity_cmp := 100, last_activity_sub := 100,
    last_seq_snap := 1, last_activity_snap := 100,
    wait_event := fun _ _ => { r := 0, signaled := false },
    last_seq_recheck := 1, last_activity_recheck := 100 }

/-- An iteration that finds `last_seq = 0` and in which the interruptible wait
is interrupted by a signal (`-ERESTARTSYS`, which is -512), while the
uninterruptible one times out. -/
def intrObs : IterObs :=
  { last_seq_cond := 0, jiffies := 100,
    last_activity_cmp := 90, last_activity_sub := 90,
    last_seq_snap := 0, last_activity_snap := 90,
    wait_event := fun intr _ =>
      if intr then { r := -512, signaled := false } else { r := 0, signaled := false },
    last_seq_recheck := 0, last_activity_recheck := 90 }

/-- A world with one device, `last_seq = 1`, and one fence at address 1 with
sequence 1 and two references, its owner's and that of the event 11 bound to
it, which is the only entry of the event list. -/
def worldEv : World :=
  { devs := fun _ => mkDev 1 2 [{ addr := 11, fence := some 1 }],
    mem := fun p => if p = 1 then some { kref := 2, vgdev := 0, seq := 1 } else none,
    destroyed := [],
    seq_reads := 0 }

/-- The world `worldEv` before the device completed anything: `last_seq = 0`,
so the fence of event 11, with sequence 1, is not signaled. -/
def worldPending : World :=
  { devs := fun _ => mkDev 0 2 [{ addr := 11, fence := some 1 }],
    mem := fun p => if p = 1 then some { kref := 2, vgdev := 0, seq := 1 } else none,
    destroyed := [],
    seq_reads := 0 }

/-- An iteration that finds `last_seq = 0` at jiffy 1000 with
`last_activity = 2147484523`, so that the timeout is `2 ^ 31`, and in which the
wait primitive finds its condition true at once and returns the timeout it was
given, as `wait_event_timeout` does. -/
def bigObs : IterObs :=
  { last_seq_cond := 0, jiffies := 1000,
    last_activity_cmp := 2147484523, last_activity_sub := 2147484523,
    last_seq_snap := 0, last_activity_snap := 2147484523,
    wait_event := fun _ t => { r := (t : Int), signaled := true },
    last_seq_recheck := 1, last_activity_recheck := 2147484523 }

/-- An iteration in which nothing moves: `last_seq` is 0 and `last_activity` is
0 at every read, it is jiffy 1000, and the wait primitive times out (returns 0)
with the condition false. -/
def lockupObs : IterObs :=
  { last_seq_cond := 0, jiffies := 1000,
    last_activity_cmp := 0, last_activity_sub := 0,
    last_seq_snap := 0, last_activity_snap := 0,
    wait_event := fun _ _ => { r := 0, signaled := false },
    last_seq_recheck := 0, last_activity_recheck := 0 }

/-! ## Lemmas -/

/-- In the lockup condition (the wait primitive timed out, the target is not
signaled, and neither `last_seq` nor `last_activity` moved since the snapshot)
the body of the loop ends without a `return`. -/
theorem wait_seq_iter_lockup (c : Consts) (target_seq : Nat) (intr : Bool)
    (o : IterObs) (hcond : target_seq > o.last_seq_cond)
    (hr : (o.wait_event intr (o.timeout c)).r = 0) :
    wait_seq_iter c target_seq intr o = Step.again := by
  unfold wait_seq_iter
  simp only [IterObs.timeout] at hr
  simp [hcond, hr, long_to_int]

/-- A value that fits a 32-bit `int` is not changed by the conversion. -/
theorem long_to_int_of_fits (x : Int) (h1 : -2147483648 ≤ x) (h2 : x < 2147483648) :
    long_to_int x = x := by
  unfold long_to_int
  omega

/-- The conversion yields a 32-bit `int`. -/
theorem long_to_int_range (x : Int) :
    -2147483648 ≤ long_to_int x ∧ long_to_int x < 2147483648 := by
  unfold long_to_int
  omega

/-- An iteration never ends in `return 0`, only the loop condition does: what
an iteration returns is the negative `int r`, the converted result of the wait
primitive. -/
theorem wait_seq_iter_ret_neg (c : Consts) (target_seq : Nat) (intr : Bool)
    (o : IterObs) (r : Int) (h : wait_seq_iter c target_seq intr o = Step.ret r) :
    target_seq > o.last_seq_cond ∧
    r = long_to_int (o.wait_event intr (o.timeout c)).r ∧ r < 0 := by
  unfold wait_seq_iter at h
  simp only [IterObs.timeout]
  by_cases h1 : target_seq > o.last_seq_cond
  · by_cases h2 : long_to_int (o.wait_event intr
        (wait_timeout c o.jiffies o.last_activity_cmp o.last_activity_sub)).r < 0
    · simp only [h1, h2, if_true, Step.ret.injEq] at h
      exact ⟨h1, h.symm, h ▸ h2⟩
    · simp [h1, h2] at h
  · simp [h1] at h

/-- The loop ends through its condition exactly when the target is reached. -/
theorem wait_seq_iter_exit (c : Consts) (target_seq : Nat) (intr : Bool)
    (o : IterObs) :
    wait_seq_iter c target_seq intr o = Step.exit ↔ target_seq ≤ o.last_seq_cond := by
  unfold wait_seq_iter
  constructor
  · intro h
    by_cases h1 : target_seq > o.last_seq_cond
    · by_cases h2 : long_to_int (o.wait_event intr
          (wait_timeout c o.jiffies o.last_activity_cmp o.last_activity_sub)).r < 0
      · simp [h1, h2] at h
      · simp [h1, h2] at h
    · omega
  · intro h
    have : ¬ target_seq > o.last_seq_cond := by omega
    simp [this]

/-- Over iterations that all time out in the lockup condition the loop never
returns, however many there are. -/
theorem wait_seq_loop_lockup (c : Consts) (target_seq : Nat) (intr : Bool)
    (o : IterObs) (hcond : target_seq > o.last_seq_cond)
    (hr : (o.wait_event intr (o.timeout c)).r = 0) (n waits : Nat) :
    wait_seq_loop c target_seq intr (List.replicate n o) waits = none := by
  induction n generalizing waits with
  | zero => rfl
  | succ k ih =>
    rw [List.replicate_succ, wait_seq_loop, wait_seq_iter_lockup c target_seq intr o hcond hr]
    exact ih (waits + 1)

/-- What `virtio_gpu_fence_signaled` answers, read off the world: a null fence
and a fence holding the sentinel are signaled, any other fence is signaled when
its sequence is at most `last_seq` of its device. -/
theorem reports_signaled_eq (c : Consts) (w : World) (fe : virtio_gpu_fence_event) :
    reports_signaled c w fe =
      match fe.fence with
      | none => true
      | some p =>
        match w.mem p with
        | none => false
        | some f =>
          decide (f.seq = c.VIRTIO_GPU_FENCE_SIGNALED_SEQ) ||
            decide (f.seq ≤ (w.devs f.vgdev).fence_drv.last_seq) := by
  cases hfe : fe.fence with
  | none => simp [reports_signaled, virtio_gpu_fence_signaled, hfe]
  | some p =>
    cases hm : w.mem p with
    | none => simp [reports_signaled, virtio_gpu_fence_signaled, hfe, hm]
    | some f =>
      by_cases hs : f.seq = c.VIRTIO_GPU_FENCE_SIGNALED_SEQ
      · simp [reports_signaled, virtio_gpu_fence_signaled, hfe, hm, hs]
      · by_cases hle : f.seq ≤ (w.devs f.vgdev).fence_drv.last_seq
        · simp [reports_signaled, virtio_gpu_fence_signaled,
            virtio_gpu_fence_seq_signaled, hfe, hm, hs, hle]
        · simp [reports_signaled, virtio_gpu_fence_signaled,
            virtio_gpu_fence_seq_signaled, hfe, hm, hs, hle]

/-- A call of `virtio_gpu_fence_signaled` on a null or valid fence returns, its
answer is the one `reports_signaled` names, and it changes neither the devices,
nor which addresses hold a fence, nor the answer for any event. -/
theorem fence_signaled_frame (c : Consts) (w : World) (fe : virtio_gpu_fence_event)
    (hvalid : ∀ p, fe.fence = some p → w.mem p ≠ none) :
    ∃ w1 : World,
      virtio_gpu_fence_signaled c fe.fence w = some (reports_signaled c w fe, w1) ∧
      w1.devs = w.devs ∧
      (∀ q, w.mem q ≠ none → w1.mem q ≠ none) ∧
      (∀ x, reports_signaled c w1 x = reports_signaled c w x) := by
  cases hfe : fe.fence with
  | none =>
    refine ⟨w, ?_, rfl, fun _ h => h, fun _ => rfl⟩
    simp [reports_signaled, virtio_gpu_fence_signaled, hfe]
  | some p =>
    cases hm : w.mem p with
    | none => exact absurd hm (hvalid p hfe)
    | some f =>
      by_cases hs : f.seq = c.VIRTIO_GPU_FENCE_SIGNALED_SEQ
      · refine ⟨w, ?_, rfl, fun _ h => h, fun _ => rfl⟩
        simp [reports_signaled, virtio_gpu_fence_signaled, hfe, hm, hs]
      · by_cases hle : f.seq ≤ (w.devs f.vgdev).fence_drv.last_seq
        · refine ⟨{ w with seq_reads := w.seq_reads + 1,
                           mem := Function.update w.mem p
                             (some { f with seq := c.VIRTIO_GPU_FENCE_SIGNALED_SEQ }) },
            ?_, rfl, ?_, ?_⟩
          · simp [reports_signaled, virtio_gpu_fence_signaled,
              virtio_gpu_fence_seq_signaled, hfe, hm, hs, hle]
          · intro q hq
            by_cases hqp : q = p
            · subst hqp
              simp
            · simpa [Function.update_noteq hqp] using hq
          · intro x
            rw [reports_signaled_eq, reports_signaled_eq]
            cases hx : x.fence with
            | none => rfl
            | some q =>
              by_cases hqp : q = p
              · subst hqp
                simp [hm, hle]
              · simp [Function.update_noteq hqp]
        · refine ⟨{ w with seq_reads := w.seq_reads + 1 }, ?_, rfl, fun _ h => h, ?_⟩
          · simp [reports_signaled, virtio_gpu_fence_signaled,
              virtio_gpu_fence_seq_signaled, hfe, hm, hs, hle]
          · intro x
            rw [reports_signaled_eq, reports_signaled_eq]

/-- The loop of the drain over entries with null or valid fences: it returns,
keeps the entries not reported signaled, in order, and logs the fired ones, in
order. -/
theorem event_process_loop_spec (c : Consts) (l : List virtio_gpu_fence_event) :
    ∀ w : World, (∀ fe ∈ l, ∀ p, fe.fence = some p → w.mem p ≠ none) →
    ∃ w1 : World,
      event_process_loop c l w =
        some (l.filter (fun fe => !reports_signaled c w fe),
              (l.filter (fun fe => reports_signaled c w fe)).flatMap fired, w1) ∧
      w1.devs = w.devs := by
  induction l with
  | nil =>
    intro w _
    exact ⟨w, rfl, rfl⟩
  | cons fe rest ih =>
    intro w hvalid
    obtain ⟨w1, hsig, hdevs, hkeep, hsame⟩ :=
      fence_signaled_frame c w fe (hvalid fe (List.mem_cons_self _ _))
    have hrest : ∀ x ∈ rest, ∀ p, x.fence = some p → w1.mem p ≠ none :=
      fun x hx p hp => hkeep p (hvalid x (List.mem_cons_of_mem _ hx) p hp)
    obtain ⟨w2, hloop, hdevs2⟩ := ih w1 hrest
    have hfun : (fun x => reports_signaled c w1 x) = (fun x => reports_signaled c w x) :=
      funext hsame
    have hfun2 : (fun x => !reports_signaled c w1 x) = (fun x => !reports_signaled c w x) :=
      funext (fun x => by rw [hsame x])
    rw [hfun, hfun2] at hloop
    refine ⟨w2, ?_, hdevs2.trans hdevs⟩
    cases hb : reports_signaled c w fe with
    | true =>
      rw [hb] at hsig
      simp [event_process_loop, hsig, hloop, hb, fired]
    | false =>
      rw [hb] at hsig
      simp [event_process_loop, hsig, hloop, hb]

/-- Dropping the unlinkings from the log of fired events leaves the callback
calls. -/
theorem filter_isCallback_fired (l : List virtio_gpu_fence_event) :
    (l.flatMap fired).filter Call.isCallback = l.flatMap fired_callbacks := by
  induction l with
  | nil => rfl
  | cons fe rest ih =>
    simp only [List.flatMap_cons, List.filter_append, ih]
    rfl

/-- A successful `virtio_gpu_fence_emit` stores `sync_seq + 1`, wrapped to 64
bits, in the counter and in the new fence. -/
theorem emit_some (c : Consts) (vgdev : Nat) (cmd_hdr : virtio_gpu_ctrl_hdr)
    (p : Nat) (w : World) :
    (((virtio_gpu_fence_emit c vgdev cmd_hdr (some p) w).2.2.2).devs vgdev).fence_drv.sync_seq
        = ((w.devs vgdev).fence_drv.sync_seq + 1) % U64_MOD ∧
    ((virtio_gpu_fence_emit c vgdev cmd_hdr (some p) w).2.2.2).mem p
        = some { kref := kref_init, vgdev := vgdev,
                 seq := ((w.devs vgdev).fence_drv.sync_seq + 1) % U64_MOD } := by
  simp [virtio_gpu_fence_emit]

/-- The sequence numbers of successive emits, as long as the counter does not
wrap. -/
theorem emit_seqs_range (c : Consts) (vgdev : Nat)
    (calls : List (virtio_gpu_ctrl_hdr × Nat)) :
    ∀ w : World, (w.devs vgdev).fence_drv.sync_seq + calls.length < U64_MOD →
      (emit_seqs c vgdev calls w).1
          = (List.range' ((w.devs vgdev).fence_drv.sync_seq + 1) calls.length).map some ∧
      (((emit_seqs c vgdev calls w).2).devs vgdev).fence_drv.sync_seq
          = (w.devs vgdev).fence_drv.sync_seq + calls.length := by
  induction calls with
  | nil =>
    intro w _
    exact ⟨rfl, rfl⟩
  | cons call rest ih =>
    intro w hlt
    obtain ⟨cmd_hdr, p⟩ := call
    simp only [List.length_cons] at hlt
    obtain ⟨hsync, hmem⟩ := emit_some c vgdev cmd_hdr p w
    have hmod : ((w.devs vgdev).fence_drv.sync_seq + 1) % U64_MOD
        = (w.devs vgdev).fence_drv.sync_seq + 1 := Nat.mod_eq_of_lt (by omega)
    rw [hmod] at hsync hmem
    have hrest := ih ((virtio_gpu_fence_emit c vgdev cmd_hdr (some p) w).2.2.2)
      (by rw [hsync]; omega)
    rw [hsync] at hrest
    obtain ⟨h1, h2⟩ := hrest
    constructor
    · simp only [emit_seqs, hmem, h1, List.length_cons, List.range'_succ, List.map_cons,
        Option.map_some']
    · simp only [emit_seqs, h2, List.length_cons]
      omega

/-- An iteration that goes round again found the target not reached and got
a non-negative `int r` from the wait primitive. -/
theorem wait_seq_iter_again (c : Consts) (target_seq : Nat) (intr : Bool)
    (o : IterObs) (h : wait_seq_iter c target_seq intr o = Step.again) :
    target_seq > o.last_seq_cond ∧
    0 ≤ long_to_int (o.wait_event intr (o.timeout c)).r := by
  unfold wait_seq_iter at h
  simp only [IterObs.timeout]
  by_cases h1 : target_seq > o.last_seq_cond
  · by_cases h2 : long_to_int (o.wait_event intr
        (wait_timeout c o.jiffies o.last_activity_cmp o.last_activity_sub)).r < 0
    · simp [h1, h2] at h
    · exact ⟨h1, not_lt.mp h2⟩
  · simp [h1] at h

/-- An iteration that found the target not reached and got a negative `int r`
from the wait primitive returns that value. -/
theorem wait_seq_iter_interrupted (c : Consts) (target_seq : Nat) (intr : Bool)
    (o : IterObs) (hcond : target_seq > o.last_seq_cond)
    (hneg : long_to_int (o.wait_event intr (o.timeout c)).r < 0) :
    wait_seq_iter c target_seq intr o
      = Step.ret (long_to_int (o.wait_event intr (o.timeout c)).r) := by
  unfold wait_seq_iter
  simp only [IterObs.timeout] at hneg ⊢
  simp [hcond, hneg]

/-- A loop that returns did so at some observation `o`, after iterations that
all went round again. -/
theorem wait_seq_loop_some (c : Consts) (target_seq : Nat) (intr : Bool)
    (obs : List IterObs) :
    ∀ (waits : Nat) (r : Int) (n : Nat),
      wait_seq_loop c target_seq intr obs waits = some (r, n) →
      ∃ (pre : List IterObs) (o : IterObs) (post : List IterObs),
        obs = pre ++ o :: post ∧
        (∀ x ∈ pre, wait_seq_iter c target_seq intr x = Step.again) ∧
        ((wait_seq_iter c target_seq intr o = Step.exit ∧ r = 0 ∧
            n = waits + pre.length) ∨
         (wait_seq_iter c target_seq intr o = Step.ret r ∧
            n = waits + pre.length + 1)) := by
  induction obs with
  | nil =>
    intro waits r n h
    simp [wait_seq_loop] at h
  | cons o rest ih =>
    intro waits r n h
    rw [wait_seq_loop] at h
    cases hstep : wait_seq_iter c target_seq intr o with
    | exit =>
      simp only [hstep, Option.some.injEq, Prod.mk.injEq] at h
      exact ⟨[], o, rest, rfl, by simp, Or.inl ⟨hstep, h.1.symm, by simp [h.2]⟩⟩
    | ret r1 =>
      simp only [hstep, Option.some.injEq, Prod.mk.injEq] at h
      obtain ⟨h1, h2⟩ := h
      subst h1
      exact ⟨[], o, rest, rfl, by simp, Or.inr ⟨hstep, by simp [h2]⟩⟩
    | again =>
      simp only [hstep] at h
      obtain ⟨pre, o1, post, hobs, hpre, hend⟩ := ih (waits + 1) r n h
      refine ⟨o :: pre, o1, post, by simp [hobs], ?_, ?_⟩
      · intro x hx
        rcases List.mem_cons.mp hx with hx1 | hx1
        · rw [hx1]
          exact hstep
        · exact hpre x hx1
      · rcases hend with ⟨h1, h2, h3⟩ | ⟨h1, h3⟩
        · exact Or.inl ⟨h1, h2, by simp only [List.length_cons]; omega⟩
        · exact Or.inr ⟨h1, by simp only [List.length_cons]; omega⟩

/-- After iterations that all go round again, the loop does what the next
iteration does. -/
theorem wait_seq_loop_append (c : Consts) (target_seq : Nat) (intr : Bool)
    (pre : List IterObs) (o : IterObs) (post : List IterObs) :
    ∀ waits : Nat, (∀ x ∈ pre, wait_seq_iter c target_seq intr x = Step.again) →
      wait_seq_loop c target_seq intr (pre ++ o :: post) waits
        = wait_seq_loop c target_seq intr (o :: post) (waits + pre.length) := by
  induction pre with
  | nil =>
    intro waits _
    rfl
  | cons x rest ih =>
    intro waits hpre
    have hx := hpre x (List.mem_cons_self _ _)
    have hrest : ∀ y ∈ rest, wait_seq_iter c target_seq intr y = Step.again :=
      fun y hy => hpre y (List.mem_cons_of_mem _ hy)
    rw [List.cons_append, wait_seq_loop, hx]
    simp only []
    rw [ih (waits + 1) hrest, List.length_cons]
    congr 1
    omega

/-- A run over two lists of calls is the run over the first followed by the
run over the second. -/
theorem ref_run_append (p : Nat) (l1 l2 : List RefOp) :
    ∀ w : World, ref_run p (l1 ++ l2) w = (ref_run p l1 w).bind (ref_run p l2) := by
  induction l1 with
  | nil =>
    intro w
    rfl
  | cons op rest ih =>
    intro w
    cases op with
    | ref =>
      simp only [List.cons_append, ref_run]
      cases virtio_gpu_fence_ref (some p) w with
      | none => rfl
      | some res => exact ih res.2
    | unref =>
      simp only [List.cons_append, ref_run]
      cases virtio_gpu_fence_unref (some p) w with
      | none => rfl
      | some res => exact ih res.2

/-- While every prefix of the calls leaves at least one handle (the count
`k + 1` at the start, plus the refs, minus the unrefs, stays positive), the run
is defined, the fence stays allocated with that count, and nothing is
destroyed. -/
theorem ref_run_live (p : Nat) (ops : List RefOp) :
    ∀ (k : Nat) (w : World) (f : virtio_gpu_fence),
      w.mem p = some f → f.kref = (k : Int) + 1 →
      (∀ j, j ≤ ops.length →
        (ops.take j).count RefOp.unref ≤ k + (ops.take j).count RefOp.ref) →
      ∃ (w1 : World) (f1 : virtio_gpu_fence),
        ref_run p ops w = some w1 ∧ w1.mem p = some f1 ∧
        f1.kref = (k : Int) + 1 + ops.count RefOp.ref - ops.count RefOp.unref ∧
        w1.destroyed = w.destroyed := by
  induction ops with
  | nil =>
    intro k w f hmem hk _
    exact ⟨w, f, rfl, hmem, by simp [hk], rfl⟩
  | cons op rest ih =>
    intro k w f hmem hk hlive
    cases op with
    | ref =>
      have hrest : ∀ j, j ≤ rest.length →
          (rest.take j).count RefOp.unref ≤ (k + 1) + (rest.take j).count RefOp.ref := by
        intro j hj
        have := hlive (j + 1) (by simp only [List.length_cons]; omega)
        simp only [List.take_succ_cons, List.count_cons, beq_self_eq_true, if_true] at this
        have hne : (RefOp.ref == RefOp.unref) = false := by decide
        simp only [hne] at this
        simp at this
        omega
      obtain ⟨w1, f1, h1, h2, h3, h4⟩ :=
        ih (k + 1)
          { w with mem := Function.update w.mem p (some { f with kref := kref_get f.kref }) }
          { f with kref := kref_get f.kref } (by simp) (by simp [kref_get, hk]) hrest
      refine ⟨w1, f1, ?_, h2, ?_, h4⟩
      · simp only [ref_run, virtio_gpu_fence_ref, hmem]
        exact h1
      · rw [h3]
        simp only [List.count_cons, beq_self_eq_true, if_true]
        have hne : (RefOp.ref == RefOp.unref) = false := by decide
        simp only [hne]
        push_cast
        simp
        ring
    | unref =>
      have hk1 : 1 ≤ k := by
        have := hlive 1 (by simp only [List.length_cons]; omega)
        simp only [List.take_succ_cons, List.take_zero, List.count_cons, List.count_nil,
          beq_self_eq_true, if_true] at this
        have hne : (RefOp.unref == RefOp.ref) = false := by decide
        simp only [hne] at this
        simp at this
        omega
      obtain ⟨k1, rfl⟩ : ∃ k1, k = k1 + 1 := ⟨k - 1, by omega⟩
      have hrest : ∀ j, j ≤ rest.length →
          (rest.take j).count RefOp.unref ≤ k1 + (rest.take j).count RefOp.ref := by
        intro j hj
        have := hlive (j + 1) (by simp only [List.length_cons]; omega)
        simp only [List.take_succ_cons, List.count_cons, beq_self_eq_true, if_true] at this
        have hne : (RefOp.unref == RefOp.ref) = false := by decide
        simp only [hne] at this
        simp at this
        omega
      have hput : (kref_put f.kref).2 = false := by
        simp only [kref_put, hk, decide_eq_false_iff_not]
        push_cast
        omega
      obtain ⟨w1, f1, h1, h2, h3, h4⟩ :=
        ih k1
          { w with mem := Function.update w.mem p
                            (some { f with kref := (kref_put f.kref).1 }) }
          { f with kref := (kref_put f.kref).1 } (by simp)
          (by simp only [kref_put, hk]; push_cast; ring) hrest
      refine ⟨w1, f1, ?_, h2, ?_, h4⟩
      · simp only [ref_run, virtio_gpu_fence_unref, hmem, hput]
        exact h1
      · rw [h3]
        simp only [List.count_cons, beq_self_eq_true, if_true]
        have hne : (RefOp.unref == RefOp.ref) = false := by decide
        simp only [hne]
        push_cast
        simp
        ring

/-- Wrapping subtraction of two words, by cases. -/
theorem sub_mod_cases (m a b : Nat) (ha : a < m) (hb : b < m) :
    (a + m - b) % m = if b ≤ a then a - b else a + m - b := by
  split_ifs with h
  · have : a + m - b = (a - b) + m := by omega
    rw [this, Nat.add_mod_right, Nat.mod_eq_of_lt (by omega)]
  · exact Nat.mod_eq_of_lt (by omega)

/-- The arithmetic of lines 59 to 63 for words modulo `m = 2 * h`: when the
signed difference is negative the timeout lies between 1 and `h`, and an
elapsed time below the window `W` gives the rest of the window. -/
theorem timeout_core (m h now la W : Nat) (hm : m = 2 * h) (hh : 0 < h)
    (hnow : now < m) (hla : la < m) :
    (h ≤ ((now + m - W % m) % m + m - la % m) % m →
      1 ≤ (la + m - (now + m - W % m) % m) % m ∧
      (la + m - (now + m - W % m) % m) % m ≤ h) ∧
    (W ≤ h → (now + m - la) % m < W →
      h ≤ ((now + m - W % m) % m + m - la % m) % m ∧
      (la + m - (now + m - W % m) % m) % m = W - (now + m - la) % m) := by
  have hmpos : 0 < m := by omega
  have hWm : W % m < m := Nat.mod_lt _ hmpos
  have hlam : la % m = la := Nat.mod_eq_of_lt hla
  have ht0 : (now + m - W % m) % m < m := Nat.mod_lt _ hmpos
  have e1 := sub_mod_cases m now (W % m) hnow hWm
  rw [hlam]
  have e2 := sub_mod_cases m ((now + m - W % m) % m) la ht0 hla
  have e3 := sub_mod_cases m la ((now + m - W % m) % m) hla ht0
  have e4 := sub_mod_cases m now la hnow hla
  rw [e2, e3, e4]
  generalize (now + m - W % m) % m = t0 at *
  constructor
  · intro hd
    split_ifs at hd ⊢ <;> omega
  · intro hW he
    have hW1 : W % m = W := Nat.mod_eq_of_lt (by omega)
    rw [hW1] at e1
    split_ifs at e1 he ⊢ <;> omega

/-- A word between 1 and half the modulus, read as a signed number, is
positive unless it is exactly half the modulus, where it is negative. -/
theorem to_long_sign (bits x : Nat) (hbits : 0 < bits) (h1 : 1 ≤ x)
    (h2 : x ≤ 2 ^ (bits - 1)) :
    (x ≠ 2 ^ (bits - 1) → 0 < to_long bits x) ∧
    (x = 2 ^ (bits - 1) → to_long bits x < 0) := by
  have hm : 2 ^ bits = 2 * 2 ^ (bits - 1) := by
    obtain ⟨k, rfl⟩ : ∃ k, bits = k + 1 := ⟨bits - 1, by omega⟩
    simp [pow_succ, Nat.mul_comm]
  have hpos : 0 < 2 ^ (bits - 1) := Nat.pow_pos (by decide)
  have hx : x % 2 ^ bits = x := Nat.mod_eq_of_lt (by omega)
  unfold to_long
  rw [hx]
  constructor
  · intro hne
    have hlt : x < 2 ^ (bits - 1) := lt_of_le_of_ne h2 hne
    simp only [hlt, if_true]
    omega
  · intro heq
    have hnlt : ¬ x < 2 ^ (bits - 1) := by omega
    simp only [hnlt, if_false]
    have : ((2 ^ bits : Nat) : Int) = 2 * ((x : Nat) : Int) := by
      rw [hm, heq]
      push_cast
      ring
    omega

/-- Or of two numbers given by a low byte and the rest. -/
theorem byte_or (b1 b2 a1 a2 : Nat) (h1 : b1 < 256) (h2 : b2 < 256) :
    (b1 + 256 * a1) ||| (b2 + 256 * a2) = (b1 ||| b2) + 256 * (a1 ||| a2) := by
  have h1p : b1 < 2 ^ 8 := by omega
  have h2p : b2 < 2 ^ 8 := by omega
  have h3 : b1 ||| b2 < 2 ^ 8 := Nat.or_lt_two_pow h1p h2p
  apply Nat.eq_of_testBit_eq
  intro j
  have e1 : b1 + 256 * a1 = 2 ^ 8 * a1 + b1 := by omega
  have e2 : b2 + 256 * a2 = 2 ^ 8 * a2 + b2 := by omega
  have e3 : (b1 ||| b2) + 256 * (a1 ||| a2) = 2 ^ 8 * (a1 ||| a2) + (b1 ||| b2) := by omega
  rw [e1, e2, e3, Nat.testBit_or, Nat.testBit_mul_pow_two_add a1 h1p,
    Nat.testBit_mul_pow_two_add a2 h2p, Nat.testBit_mul_pow_two_add _ h3]
  by_cases hj : j < 8
  · simp [hj]
  · simp [hj]

/-- The byte-wise or of two encoded words of the same size encodes the or of
the two numbers. -/
theorem le_to_cpu_le_or (a : List Nat) :
    ∀ b : List Nat, a.length = b.length → (∀ x ∈ a, x < 256) → (∀ x ∈ b, x < 256) →
      le_to_cpu (le_or a b) = le_to_cpu a ||| le_to_cpu b := by
  induction a with
  | nil =>
    intro b hlen _ _
    cases b with
    | nil => simp [le_or, le_to_cpu]
    | cons y ys => simp at hlen
  | cons x xs ih =>
    intro b hlen ha hb
    cases b with
    | nil => simp at hlen
    | cons y ys =>
      have hx : x < 256 := ha x (List.mem_cons_self _ _)
      have hy : y < 256 := hb y (List.mem_cons_self _ _)
      have hrec := ih ys (by simpa using hlen)
        (fun z hz => ha z (List.mem_cons_of_mem _ hz))
        (fun z hz => hb z (List.mem_cons_of_mem _ hz))
      simp only [le_or, le_to_cpu, List.zipWith_cons_cons, List.foldr_cons] at hrec ⊢
      rw [hrec, byte_or x y _ _ hx hy]

/-- Decoding the bytes number `s` to `s + n - 1` of `x`. -/
theorem le_to_cpu_bytes_from (x n : Nat) :
    ∀ s : Nat, le_to_cpu ((List.range' s n).map (fun i => x / 256 ^ i % 256))
      = x / 256 ^ s % 256 ^ n := by
  induction n with
  | zero =>
    intro s
    simp [le_to_cpu, Nat.mod_one]
  | succ k ih =>
    intro s
    have hrec := ih (s + 1)
    simp only [le_to_cpu, List.range'_succ, List.map_cons, List.foldr_cons] at hrec ⊢
    rw [hrec]
    have hdiv : x / 256 ^ (s + 1) = x / 256 ^ s / 256 := by
      rw [pow_succ, Nat.div_div_eq_div_mul]
    rw [hdiv, pow_succ, Nat.mul_comm (256 ^ k) 256, Nat.mod_mul]

/-- Decoding inverts encoding on the numbers that fit. -/
theorem le_to_cpu_cpu_to_le (n x : Nat) : le_to_cpu (cpu_to_le n x) = x % 256 ^ n := by
  have h := le_to_cpu_bytes_from x n 0
  simp only [pow_zero, Nat.div_one] at h
  rw [← h, cpu_to_le, List.range_eq_range']

/-- An encoded word has the size asked for and consists of bytes. -/
theorem cpu_to_le_bytes (n x : Nat) :
    (cpu_to_le n x).length = n ∧ ∀ b ∈ cpu_to_le n x, b < 256 := by
  constructor
  · simp [cpu_to_le]
  · intro b hb
    simp only [cpu_to_le, List.mem_map] at hb
    obtain ⟨i, _, rfl⟩ := hb
    exact Nat.mod_lt _ (by decide)

/-- Whatever `virtio_gpu_fence_signaled` returns, it leaves the devices and
the destroy log alone, and every fence keeps its address, its reference count
and its device. -/
theorem fence_signaled_keeps (c : Consts) (fence : Option Nat) (w w1 : World)
    (b : Bool) (h : virtio_gpu_fence_signaled c fence w = some (b, w1)) :
    w1.devs = w.devs ∧ w1.destroyed = w.destroyed ∧
    (∀ q f, w.mem q = some f →
      ∃ f1, w1.mem q = some f1 ∧ f1.kref = f.kref ∧ f1.vgdev = f.vgdev) ∧
    (∀ q, w.mem q = none → w1.mem q = none) := by
  cases fence with
  | none =>
    simp only [virtio_gpu_fence_signaled, Option.some.injEq, Prod.mk.injEq] at h
    obtain ⟨_, rfl⟩ := h
    exact ⟨rfl, rfl, fun q f hq => ⟨f, hq, rfl, rfl⟩, fun _ hq => hq⟩
  | some p =>
    unfold virtio_gpu_fence_signaled at h
    cases hm : w.mem p with
    | none => simp [hm] at h
    | some f0 =>
      simp only [hm] at h
      by_cases hs : f0.seq = c.VIRTIO_GPU_FENCE_SIGNALED_SEQ
      · simp only [hs, if_true, Option.some.injEq, Prod.mk.injEq] at h
        obtain ⟨_, rfl⟩ := h
        exact ⟨rfl, rfl, fun q f hq => ⟨f, hq, rfl, rfl⟩, fun _ hq => hq⟩
      · simp only [hs, if_false] at h
        cases hr : (virtio_gpu_fence_seq_signaled f0.vgdev f0.seq w).1 with
        | true =>
          simp only [hr, if_true, Option.some.injEq, Prod.mk.injEq] at h
          obtain ⟨_, rfl⟩ := h
          refine ⟨rfl, rfl, ?_, ?_⟩
          · intro q f hq
            by_cases hqp : q = p
            · subst hqp
              rw [hm] at hq
              obtain rfl := Option.some.inj hq
              exact ⟨{ f0 with seq := c.VIRTIO_GPU_FENCE_SIGNALED_SEQ },
                by simp [virtio_gpu_fence_seq_signaled], rfl, rfl⟩
            · exact ⟨f, by simpa [virtio_gpu_fence_seq_signaled,
                Function.update_noteq hqp] using hq, rfl, rfl⟩
          · intro q hq
            by_cases hqp : q = p
            · subst hqp
              rw [hm] at hq
              cases hq
            · simpa [virtio_gpu_fence_seq_signaled, Function.update_noteq hqp] using hq
        | false =>
          simp only [hr, Bool.false_eq_true, if_false, Option.some.injEq,
            Prod.mk.injEq] at h
          obtain ⟨_, rfl⟩ := h
          exact ⟨rfl, rfl, fun q f hq => ⟨f, hq, rfl, rfl⟩, fun _ hq => hq⟩

/-- Whatever the loop of the drain returns, it leaves the devices and the
destroy log alone, and every fence keeps its address, its reference count and
its device. -/
theorem event_process_loop_keeps (c : Consts) (l : List virtio_gpu_fence_event) :
    ∀ (w w1 : World) (kept : List virtio_gpu_fence_event) (log : List Call),
      event_process_loop c l w = some (kept, log, w1) →
      w1.devs = w.devs ∧ w1.destroyed = w.destroyed ∧
      (∀ q f, w.mem q = some f →
        ∃ f1, w1.mem q = some f1 ∧ f1.kref = f.kref ∧ f1.vgdev = f.vgdev) ∧
      (∀ q, w.mem q = none → w1.mem q = none) := by
  induction l with
  | nil =>
    intro w w1 kept log h
    simp only [event_process_loop, Option.some.injEq, Prod.mk.injEq] at h
    obtain ⟨_, _, rfl⟩ := h
    exact ⟨rfl, rfl, fun q f hq => ⟨f, hq, rfl, rfl⟩, fun _ hq => hq⟩
  | cons fe rest ih =>
    intro w w1 kept log h
    rw [event_process_loop] at h
    cases hsig : virtio_gpu_fence_signaled c fe.fence w with
    | none => simp [hsig] at h
    | some res =>
      obtain ⟨b, wa⟩ := res
      obtain ⟨k1, k2, k3, k4⟩ := fence_signaled_keeps c fe.fence w wa b hsig
      cases hloop : event_process_loop c rest wa with
      | none => cases b <;> simp [hsig, hloop] at h
      | some res2 =>
        obtain ⟨kept2, log2, wb⟩ := res2
        obtain ⟨j1, j2, j3, j4⟩ := ih wa wb kept2 log2 hloop
        have hw : w1 = wb := by
          cases b <;> simp [hsig, hloop] at h <;> exact h.2.2.symm
        subst hw
        refine ⟨j1.trans k1, j2.trans k2, ?_, fun q hq => j4 q (k4 q hq)⟩
        intro q f hq
        obtain ⟨f1, g1, g2, g3⟩ := k3 q f hq
        obtain ⟨f2, g4, g5, g6⟩ := j3 q f1 g1
        exact ⟨f2, g4, g5.trans g2, g6.trans g3⟩

/-- Whatever `virtio_gpu_fence_event_process` returns: the counters of every
device and the destroy log are as before, the new event list of `vdev` is what
the loop kept, and every fence keeps its address, its reference count and its
device. -/
theorem event_process_keeps (c : Consts) (vdev last_seq : Nat) (w w1 : World)
    (log : List Call)
    (h : virtio_gpu_fence_event_process c vdev last_seq w = some (log, w1)) :
    (∀ d, (w1.devs d).fence_drv.last_seq = (w.devs d).fence_drv.last_seq ∧
          (w1.devs d).fence_drv.sync_seq = (w.devs d).fence_drv.sync_seq ∧
          (w1.devs d).fence_drv.last_activity = (w.devs d).fence_drv.last_activity) ∧
    w1.destroyed = w.destroyed ∧
    (∀ q f, w.mem q = some f →
      ∃ f1, w1.mem q = some f1 ∧ f1.kref = f.kref ∧ f1.vgdev = f.vgdev) ∧
    (∀ q, w.mem q = none → w1.mem q = none) := by
  unfold virtio_gpu_fence_event_process at h
  cases hloop : event_process_loop c (w.devs vdev).fence_drv.event_list w with
  | none => simp [hloop] at h
  | some res =>
    obtain ⟨kept, log2, wb⟩ := res
    obtain ⟨j1, j2, j3, j4⟩ := event_process_loop_keeps c _ w wb kept log2 hloop
    simp only [hloop, Option.some.injEq, Prod.mk.injEq] at h
    obtain ⟨_, rfl⟩ := h
    refine ⟨?_, j2, j3, j4⟩
    intro d
    by_cases hd : d = vdev
    · subst hd
      simp [j1]
    · simp [Function.update_noteq hd, j1]

/-- A drain of a list whose entries have null or valid fences returns. -/
theorem event_process_returns (c : Consts) (vdev last_seq : Nat) (w : World)
    (hvalid : ∀ fe ∈ (w.devs vdev).fence_drv.event_list,
      ∀ p, fe.fence = some p → w.mem p ≠ none) :
    ∃ w1 : World,
      virtio_gpu_fence_event_process c vdev last_seq w =
        some ((((w.devs vdev).fence_drv.event_list).filter
                (fun fe => reports_signaled c w fe)).flatMap fired, w1) ∧
      (w1.devs vdev).fence_drv.event_list =
        ((w.devs vdev).fence_drv.event_list).filter
          (fun fe => !reports_signaled c w fe) := by
  obtain ⟨w2, hloop, _⟩ :=
    event_process_loop_spec c (w.devs vdev).fence_drv.event_list w hvalid
  let dev1 : virtio_gpu_device :=
    { w2.devs vdev with
        fence_drv := { (w2.devs vdev).fence_drv with
          event_list := ((w.devs vdev).fence_drv.event_list).filter
            (fun fe => !reports_signaled c w fe) } }
  refine ⟨{ w2 with devs := Function.update w2.devs vdev dev1 }, ?_, ?_⟩
  · simp only [virtio_gpu_fence_event_process, hloop, dev1]
  · simp [dev1]

/-- The answer of `virtio_gpu_fence_signaled` for an event depends on the
fences and on `last_seq` of the devices only. -/
theorem reports_signaled_congr (c : Consts) (w w1 : World) (hmem : w1.mem = w.mem)
    (hlast : ∀ d, (w1.devs d).fence_drv.last_seq = (w.devs d).fence_drv.last_seq)
    (x : virtio_gpu_fence_event) :
    reports_signaled c w1 x = reports_signaled c w x := by
  rw [reports_signaled_eq, reports_signaled_eq, hmem]
  cases x.fence with
  | none => rfl
  | some p =>
    simp only []
    cases w.mem p with
    | none => rfl
    | some f => simp only [hlast]

/-- The loop of the drain keeps valid fences valid and does not change the
answer of `virtio_gpu_fence_signaled` for any event. -/
theorem event_process_loop_reports (c : Consts) (l : List virtio_gpu_fence_event) :
    ∀ w : World, (∀ fe ∈ l, ∀ p, fe.fence = some p → w.mem p ≠ none) →
    ∀ (kept : List virtio_gpu_fence_event) (log : List Call) (w1 : World),
      event_process_loop c l w = some (kept, log, w1) →
      ∀ x, reports_signaled c w1 x = reports_signaled c w x := by
  induction l with
  | nil =>
    intro w _ kept log w1 h x
    simp only [event_process_loop, Option.some.injEq, Prod.mk.injEq] at h
    rw [← h.2.2]
  | cons fe rest ih =>
    intro w hvalid kept log w1 h x
    obtain ⟨wa, hsig, _, hkeep, hsame⟩ :=
      fence_signaled_frame c w fe (hvalid fe (List.mem_cons_self _ _))
    have hrest : ∀ y ∈ rest, ∀ p, y.fence = some p → wa.mem p ≠ none :=
      fun y hy p hp => hkeep p (hvalid y (List.mem_cons_of_mem _ hy) p hp)
    rw [event_process_loop, hsig] at h
    cases hloop : event_process_loop c rest wa with
    | none => cases hb : reports_signaled c w fe <;> simp [hb, hloop] at h
    | some res =>
      obtain ⟨kept2, log2, wb⟩ := res
      have hw : w1 = wb := by
        cases hb : reports_signaled c w fe <;> simp [hb, hloop] at h <;> exact h.2.2.symm
      subst hw
      rw [ih wa hrest kept2 log2 w1 hloop x, hsame x]

/-- A drain of a list whose entries have null or valid fences: it returns the
log of the entries reported signaled, leaves the others linked, keeps valid
fences valid and does not change the answer of `virtio_gpu_fence_signaled` for
any event. -/
theorem event_process_frame (c : Consts) (vdev last_seq : Nat) (w : World)
    (hvalid : ∀ fe ∈ (w.devs vdev).fence_drv.event_list,
      ∀ p, fe.fence = some p → w.mem p ≠ none) :
    ∃ w1 : World,
      virtio_gpu_fence_event_process c vdev last_seq w =
        some ((((w.devs vdev).fence_drv.event_list).filter
                (fun fe => reports_signaled c w fe)).flatMap fired, w1) ∧
      (w1.devs vdev).fence_drv.event_list =
        ((w.devs vdev).fence_drv.event_list).filter
          (fun fe => !reports_signaled c w fe) ∧
      (∀ q, w.mem q ≠ none → w1.mem q ≠ none) ∧
      (∀ x, reports_signaled c w1 x = reports_signaled c w x) := by
  obtain ⟨w2, hloop, hdevs⟩ :=
    event_process_loop_spec c (w.devs vdev).fence_drv.event_list w hvalid
  have hrep := event_process_loop_reports c _ w hvalid _ _ w2 hloop
  obtain ⟨_, _, hmem, _⟩ := event_process_loop_keeps c _ w w2 _ _ hloop
  let dev1 : virtio_gpu_device :=
    { w2.devs vdev with
        fence_drv := { (w2.devs vdev).fence_drv with
          event_list := ((w.devs vdev).fence_drv.event_list).filter
            (fun fe => !reports_signaled c w fe) } }
  refine ⟨{ w2 with devs := Function.update w2.devs vdev dev1 }, ?_, ?_, ?_, ?_⟩
  · simp only [virtio_gpu_fence_event_process, hloop, dev1]
  · simp [dev1]
  · intro q hq
    cases hm : w.mem q with
    | none => exact absurd hm hq
    | some f =>
      obtain ⟨f1, h1, _⟩ := hmem q f hm
      simp [h1]
  · intro x
    rw [← hrep x]
    refine reports_signaled_congr c w2
      { w2 with devs := Function.update w2.devs vdev dev1 } rfl ?_ x
    intro d
    by_cases hd : d = vdev
    · subst hd
      simp [dev1]
    · simp [Function.update_noteq hd]

/-- The number of `seq_done` calls for the address `a` in the log of fired
events is the number of fired events at that address. -/
theorem count_seq_done_fired (a : Nat) (l : List virtio_gpu_fence_event) :
    (l.flatMap fired).count (Call.seq_done a) = (l.map (fun fe => fe.addr)).count a := by
  induction l with
  | nil => rfl
  | cons fe rest ih =>
    simp only [List.flatMap_cons, List.count_append, ih, List.map_cons, fired]
    by_cases h : fe.addr = a
    · simp [List.count_cons, h]
      omega
    · simp [List.count_cons, h]

/-- The number of `cleanup` calls for the address `a` in the log of fired
events is the number of fired events at that address. -/
theorem count_cleanup_fired (a : Nat) (l : List virtio_gpu_fence_event) :
    (l.flatMap fired).count (Call.cleanup a) = (l.map (fun fe => fe.addr)).count a := by
  induction l with
  | nil => rfl
  | cons fe rest ih =>
    simp only [List.flatMap_cons, List.count_append, ih, List.map_cons, fired]
    by_cases h : fe.addr = a
    · simp [List.count_cons, h]
      omega
    · simp [List.count_cons, h]

/-- Splitting a list by a test splits the count of every address. -/
theorem count_addr_filter_split (t : virtio_gpu_fence_event → Bool) (a : Nat)
    (l : List virtio_gpu_fence_event) :
    ((l.filter t).map (fun fe => fe.addr)).count a +
      ((l.filter (fun fe => !t fe)).map (fun fe => fe.addr)).count a
      = (l.map (fun fe => fe.addr)).count a := by
  induction l with
  | nil => rfl
  | cons fe rest ih =>
    cases ht : t fe with
    | true =>
      simp only [List.filter_cons, ht, if_true, Bool.not_true, Bool.false_eq_true,
        if_false, List.map_cons, List.count_cons]
      omega
    | false =>
      simp only [List.filter_cons, ht, Bool.false_eq_true, if_false, Bool.not_false,
        if_true, List.map_cons, List.count_cons]
      omega

/-- The advance of a counter keeps the event lists and the fences. -/
theorem advance_to_keeps (vgdev seq now : Nat) (w : World) :
    (advance_to vgdev seq now w).mem = w.mem ∧
    ∀ d, ((advance_to vgdev seq now w).devs d).fence_drv.event_list
      = (w.devs d).fence_drv.event_list := by
  refine ⟨rfl, ?_⟩
  intro d
  by_cases hd : d = vgdev
  · subst hd
    simp [advance_to]
  · simp [advance_to, Function.update_noteq hd]

/-- Over any sequence of advances and drains, starting with a list whose
entries have null or valid fences: the run returns, the calls logged for an
address are at most as many as the entries at that address in the list at the
start, and the final list is a sublist of the first with valid fences. -/
theorem drain_run_counts (c : Consts) (vdev : Nat) (steps : List DrainStep) :
    ∀ w : World,
      (∀ fe ∈ (w.devs vdev).fence_drv.event_list,
        ∀ p, fe.fence = some p → w.mem p ≠ none) →
      ∃ (log : List Call) (w1 : World),
        drain_run c vdev steps w = some (log, w1) ∧
        (∀ a, log.count (Call.seq_done a)
              ≤ (((w.devs vdev).fence_drv.event_list).map (fun fe => fe.addr)).count a ∧
            log.count (Call.cleanup a)
              ≤ (((w.devs vdev).fence_drv.event_list).map (fun fe => fe.addr)).count a) ∧
        List.Sublist (w1.devs vdev).fence_drv.event_list
          (w.devs vdev).fence_drv.event_list ∧
        (∀ fe ∈ (w1.devs vdev).fence_drv.event_list,
          ∀ p, fe.fence = some p → w1.mem p ≠ none) := by
  induction steps with
  | nil =>
    intro w hvalid
    exact ⟨[], w, rfl, fun a => ⟨by simp, by simp⟩, List.Sublist.refl _, hvalid⟩
  | cons step rest ih =>
    intro w hvalid
    cases step with
    | advance d seq now =>
      obtain ⟨hmem, hlist⟩ := advance_to_keeps d seq now w
      have hv : ∀ fe ∈ ((advance_to d seq now w).devs vdev).fence_drv.event_list,
          ∀ p, fe.fence = some p → (advance_to d seq now w).mem p ≠ none := by
        rw [hlist vdev, hmem]
        exact hvalid
      obtain ⟨log, w1, h1, h2, h3, h4⟩ := ih (advance_to d seq now w) hv
      rw [hlist vdev] at h2 h3
      exact ⟨log, w1, by simpa [drain_run] using h1, h2, h3, h4⟩
    | drain =>
      obtain ⟨wa, hret, hl, hkeep, _⟩ :=
        event_process_frame c vdev (w.devs vdev).fence_drv.last_seq w hvalid
      have hv : ∀ fe ∈ (wa.devs vdev).fence_drv.event_list,
          ∀ p, fe.fence = some p → wa.mem p ≠ none := by
        intro fe hfe p hp
        rw [hl] at hfe
        exact hkeep p (hvalid fe (List.mem_of_mem_filter hfe) p hp)
      obtain ⟨log2, w1, h1, h2, h3, h4⟩ := ih wa hv
      rw [hl] at h2 h3
      refine ⟨(((w.devs vdev).fence_drv.event_list).filter
                (fun fe => reports_signaled c w fe)).flatMap fired ++ log2, w1,
        by simp [drain_run, hret, h1], ?_, h3.trans (List.filter_sublist _), h4⟩
      intro a
      have hsplit := count_addr_filter_split (fun fe => reports_signaled c w fe) a
        (w.devs vdev).fence_drv.event_list
      have := h2 a
      rw [List.count_append, List.count_append, count_seq_done_fired, count_cleanup_fired]
      omega

/-! ## Claims -/

/-- C1 (what the code does at the failing input): with the target sequence 1,
`last_seq` stuck at 0 and `last_activity` unchanged, an iteration whose wait
primitive times out unsignaled is the lockup condition, yet the iteration ends
without a `return`, and `virtio_gpu_fence_wait` with `intr = false` on fence A
has not returned after any number `n` of such iterations: no timeout error is
ever produced. -/
theorem wait_lockup_never_returns :
    wait_seq_iter consts0 1 false lockupObs = Step.again ∧
    ∀ n : Nat,
      virtio_gpu_fence_wait_seq consts0 (fun _ => List.replicate n lockupObs) 0 1 false
        = none ∧
      (match virtio_gpu_fence_wait consts0 (fun _ => List.replicate n lockupObs)
          (some 1) false (worldAB (mkDev 0 2 [])) with
        | Outcome.blocked => True
        | _ => False) := by
  have hc : (1 : Nat) > lockupObs.last_seq_cond := by decide
  have hr : (lockupObs.wait_event false (lockupObs.timeout consts0)).r = 0 := rfl
  refine ⟨wait_seq_iter_lockup consts0 1 false lockupObs hc hr, fun n => ?_⟩
  have h := wait_seq_loop_lockup consts0 1 false lockupObs hc hr n 0
  refine ⟨h, ?_⟩
  simp only [virtio_gpu_fence_wait, worldAB, virtio_gpu_fence_wait_seq, if_true]
  rw [h]
  trivial

/-- C2: one call of `virtio_gpu_fence_event_process` on a list whose entries
have null or valid fences returns; its log is, in list order, `seq_done(e)`,
the unlinking of `e`, `cleanup(e)` for exactly the entries `e` that
`virtio_gpu_fence_signaled` reports signaled; the callback calls alone are the
in-order concatenation of `[seq_done(e), cleanup(e)]` over those entries; and
the list afterwards is the original list without those entries, the others in
their original order. The counters of every device are unchanged. -/
theorem event_process_fires_signaled_in_order (c : Consts) (vdev last_seq : Nat)
    (w : World)
    (hvalid : ∀ fe ∈ (w.devs vdev).fence_drv.event_list,
      ∀ p, fe.fence = some p → w.mem p ≠ none) :
    ∃ (log : List Call) (w1 : World),
      virtio_gpu_fence_event_process c vdev last_seq w = some (log, w1) ∧
      log = (((w.devs vdev).fence_drv.event_list).filter
              (fun fe => reports_signaled c w fe)).flatMap fired ∧
      log.filter Call.isCallback =
        (((w.devs vdev).fence_drv.event_list).filter
              (fun fe => reports_signaled c w fe)).flatMap fired_callbacks ∧
      (w1.devs vdev).fence_drv.event_list =
        ((w.devs vdev).fence_drv.event_list).filter
              (fun fe => !reports_signaled c w fe) ∧
      (∀ d, (w1.devs d).fence_drv.last_seq = (w.devs d).fence_drv.last_seq ∧
            (w1.devs d).fence_drv.sync_seq = (w.devs d).fence_drv.sync_seq ∧
            (w1.devs d).fence_drv.last_activity = (w.devs d).fence_drv.last_activity) := by
  obtain ⟨w2, hloop, hdevs⟩ :=
    event_process_loop_spec c (w.devs vdev).fence_drv.event_list w hvalid
  let dev1 : virtio_gpu_device :=
    { w2.devs vdev with
        fence_drv := { (w2.devs vdev).fence_drv with
          event_list := ((w.devs vdev).fence_drv.event_list).filter
            (fun fe => !reports_signaled c w fe) } }
  refine ⟨(((w.devs vdev).fence_drv.event_list).filter
              (fun fe => reports_signaled c w fe)).flatMap fired,
    { w2 with devs := Function.update w2.devs vdev dev1 },
    ?_, rfl, filter_isCallback_fired _, ?_, ?_⟩
  · simp only [virtio_gpu_fence_event_process, hloop, dev1]
  · simp [dev1]
  · intro d
    by_cases hd : d = vdev
    · subst hd
      simp [dev1, hdevs]
    · simp [Function.update_noteq hd, hdevs]

/-- C2 at a concrete input: the list holds events 10, 11, 12 and 13, bound to
fence B, fence A, no fence and fence A again, and `last_seq` is 1. Events 11,
12 and 13 fire, in that order; event 10 stays. -/
theorem event_process_fires_signaled_in_order_witness :
    (∀ fe ∈ ((worldAB (mkDev 1 2 eventsBANA)).devs 0).fence_drv.event_list,
      ∀ p, fe.fence = some p → (worldAB (mkDev 1 2 eventsBANA)).mem p ≠ none) ∧
    ∃ (log : List Call) (w1 : World),
      virtio_gpu_fence_event_process consts0 0 1 (worldAB (mkDev 1 2 eventsBANA))
        = some (log, w1) ∧
      log = [Call.seq_done 11, Call.list_del 11, Call.cleanup 11,
             Call.seq_done 12, Call.list_del 12, Call.cleanup 12,
             Call.seq_done 13, Call.list_del 13, Call.cleanup 13] ∧
      log.filter Call.isCallback =
            [Call.seq_done 11, Call.cleanup 11, Call.seq_done 12, Call.cleanup 12,
             Call.seq_done 13, Call.cleanup 13] ∧
      (w1.devs 0).fence_drv.event_list = [{ addr := 10, fence := some 2 }] := by
  have hv : ∀ fe ∈ ((worldAB (mkDev 1 2 eventsBANA)).devs 0).fence_drv.event_list,
      ∀ p, fe.fence = some p → (worldAB (mkDev 1 2 eventsBANA)).mem p ≠ none := by
    intro fe hfe p hp
    simp only [worldAB, mkDev, eventsBANA, List.mem_cons, List.mem_singleton,
      List.not_mem_nil, or_false] at hfe
    rcases hfe with h | h | h | h <;> subst h <;> simp at hp <;> subst hp <;> simp [worldAB]
  refine ⟨hv, ?_⟩
  obtain ⟨log, w1, h1, h2, h3, h4, _⟩ :=
    event_process_fires_signaled_in_order consts0 0 1 (worldAB (mkDev 1 2 eventsBANA)) hv
  exact ⟨log, w1, h1, h2.trans (by decide), h3.trans (by decide), h4.trans (by decide)⟩

/-- C3: for a fence at a valid address whose sequence is not the sentinel,
`virtio_gpu_fence_signaled` returns true exactly when `fence.seq <= last_seq`
of the fence's device; if so it stores the sentinel in `fence.seq`, if not it
leaves the fence as it was; the devices (`last_seq`, `sync_seq`,
`last_activity`), the other fences and the destroy log are unchanged. -/
theorem fence_signaled_iff_seq_le (c : Consts) (w : World) (p : Nat)
    (f : virtio_gpu_fence) (hmem : w.mem p = some f)
    (hseq : f.seq ≠ c.VIRTIO_GPU_FENCE_SIGNALED_SEQ) :
    ∃ w1 : World,
      virtio_gpu_fence_signaled c (some p) w
        = some (decide (f.seq ≤ (w.devs f.vgdev).fence_drv.last_seq), w1) ∧
      w1.devs = w.devs ∧
      (f.seq ≤ (w.devs f.vgdev).fence_drv.last_seq →
        w1.mem p = some { f with seq := c.VIRTIO_GPU_FENCE_SIGNALED_SEQ }) ∧
      (¬ f.seq ≤ (w.devs f.vgdev).fence_drv.last_seq → w1.mem p = some f) ∧
      (∀ q, q ≠ p → w1.mem q = w.mem q) ∧
      w1.destroyed = w.destroyed := by
  by_cases hle : f.seq ≤ (w.devs f.vgdev).fence_drv.last_seq
  · refine ⟨{ w with seq_reads := w.seq_reads + 1,
                     mem := Function.update w.mem p
                       (some { f with seq := c.VIRTIO_GPU_FENCE_SIGNALED_SEQ }) },
      ?_, rfl, ?_, ?_, ?_, rfl⟩
    · simp [virtio_gpu_fence_signaled, virtio_gpu_fence_seq_signaled, hmem, hseq, hle]
    · intro _
      simp
    · intro h
      exact absurd hle h
    · intro q hq
      simp [Function.update_noteq hq]
  · refine ⟨{ w with seq_reads := w.seq_reads + 1 }, ?_, rfl, ?_, ?_, ?_, rfl⟩
    · simp [virtio_gpu_fence_signaled, virtio_gpu_fence_seq_signaled, hmem, hseq, hle]
    · intro h
      exact absurd h hle
    · intro _
      exact hmem
    · intro q _
      rfl

/-- C3, the scenario of the spec: with `last_seq = 1` fence A (sequence 1) is
signaled and fence B (sequence 2) is not; with `last_seq = 2` both are. -/
theorem fence_signaled_iff_seq_le_witness :
    ((worldAB (mkDev 1 2 [])).mem 1 = some { kref := 1, vgdev := 0, seq := 1 } ∧
      (1 : Nat) ≠ consts0.VIRTIO_GPU_FENCE_SIGNALED_SEQ ∧
      ∃ w1 : World,
        virtio_gpu_fence_signaled consts0 (some 1) (worldAB (mkDev 1 2 []))
          = some (true, w1) ∧
        w1.devs = (worldAB (mkDev 1 2 [])).devs ∧
        w1.mem 1 = some { kref := 1, vgdev := 0, seq := 0 }) ∧
    (∃ w1 : World,
        virtio_gpu_fence_signaled consts0 (some 2) (worldAB (mkDev 1 2 []))
          = some (false, w1) ∧
        w1.mem 2 = some { kref := 1, vgdev := 0, seq := 2 }) ∧
    (∃ w1 : World,
        virtio_gpu_fence_signaled consts0 (some 1) (worldAB (mkDev 2 2 []))
          = some (true, w1)) ∧
    (∃ w1 : World,
        virtio_gpu_fence_signaled consts0 (some 2) (worldAB (mkDev 2 2 []))
          = some (true, w1)) := by
  refine ⟨⟨rfl, by decide, ?_⟩, ?_, ?_, ?_⟩
  · obtain ⟨w1, h1, h2, h3, _⟩ :=
      fence_signaled_iff_seq_le consts0 (worldAB (mkDev 1 2 [])) 1
        { kref := 1, vgdev := 0, seq := 1 } rfl (by decide)
    exact ⟨w1, h1, h2, h3 (by decide)⟩
  · obtain ⟨w1, h1, _, _, h4, _⟩ :=
      fence_signaled_iff_seq_le consts0 (worldAB (mkDev 1 2 [])) 2
        { kref := 1, vgdev := 0, seq := 2 } rfl (by decide)
    exact ⟨w1, h1, h4 (by decide)⟩
  · obtain ⟨w1, h1, _⟩ :=
      fence_signaled_iff_seq_le consts0 (worldAB (mkDev 2 2 [])) 1
        { kref := 1, vgdev := 0, seq := 1 } rfl (by decide)
    exact ⟨w1, h1⟩
  · obtain ⟨w1, h1, _⟩ :=
      fence_signaled_iff_seq_le consts0 (worldAB (mkDev 2 2 [])) 2
        { kref := 1, vgdev := 0, seq := 2 } rfl (by decide)
    exact ⟨w1, h1⟩

/-- C4: once `virtio_gpu_fence_signaled` has returned true for a fence, a later
call on it, in any world `w2` that holds the fence as that call left it
(whatever the counters of `w2` are), returns true and returns `w2` itself: the
fence is unchanged and the count of reads of `last_seq` has not moved. -/
theorem fence_signaled_memoized (c : Consts) (fence : Option Nat) (w w1 : World)
    (h : virtio_gpu_fence_signaled c fence w = some (true, w1)) (w2 : World)
    (hsame : ∀ p, fence = some p → w2.mem p = w1.mem p) :
    virtio_gpu_fence_signaled c fence w2 = some (true, w2) := by
  cases fence with
  | none => rfl
  | some p =>
    have h2 := hsame p rfl
    unfold virtio_gpu_fence_signaled at h
    cases hm : w.mem p with
    | none => simp [hm] at h
    | some f =>
      simp only [hm] at h
      by_cases hs : f.seq = c.VIRTIO_GPU_FENCE_SIGNALED_SEQ
      · simp only [hs, if_true, Option.some.injEq, Prod.mk.injEq, true_and] at h
        subst h
        simp [virtio_gpu_fence_signaled, h2, hm, hs]
      · simp only [hs, if_false] at h
        by_cases hr : (virtio_gpu_fence_seq_signaled f.vgdev f.seq w).1 = true
        · simp only [hr, if_true, Option.some.injEq, Prod.mk.injEq, true_and] at h
          subst h
          simp only [Function.update_same] at h2
          simp [virtio_gpu_fence_signaled, h2]
        · simp [hr] at h

/-- C4 at a concrete input: fence A (sequence 1) is seen signaled with
`last_seq = 1`; a later call with `last_seq = 0`, below the fence's original
sequence, still returns true and changes nothing. -/
theorem fence_signaled_memoized_witness :
    virtio_gpu_fence_signaled consts0 (some 1) (worldAB (mkDev 1 2 []))
        = some (true, worldA_seen) ∧
    (mkDev 0 2 []).fence_drv.last_seq < 1 ∧
    virtio_gpu_fence_signaled consts0 (some 1)
        { worldA_seen with devs := fun _ => mkDev 0 2 [] }
      = some (true, { worldA_seen with devs := fun _ => mkDev 0 2 [] }) :=
  have h1 : virtio_gpu_fence_signaled consts0 (some 1) (worldAB (mkDev 1 2 []))
      = some (true, worldA_seen) := rfl
  ⟨h1, by decide,
    fence_signaled_memoized consts0 (some 1) (worldAB (mkDev 1 2 [])) worldA_seen h1
      { worldA_seen with devs := fun _ => mkDev 0 2 [] } (fun _ _ => rfl)⟩

/-- C5, as stated, fails where the 64-bit counter wraps: starting from
`sync_seq = 2 ^ 64 - 2`, two successful emits hand out `2 ^ 64 - 1` and then 0,
so the second number is not greater than the first and is not the initial
`sync_seq` plus 2. -/
theorem emit_seqs_wrap_counterexample :
    (emit_seqs consts0 0 [(hdr0, 3), (hdr0, 4)]
        (worldAB (mkDev 0 (2 ^ 64 - 2) []))).1 = [some (2 ^ 64 - 1), some 0] ∧
    ¬ ((2 ^ 64 - 1 : Nat) < 0) ∧
    (0 : Nat) ≠ ((worldAB (mkDev 0 (2 ^ 64 - 2) [])).devs 0).fence_drv.sync_seq + 2 := by
  refine ⟨?_, by decide, ?_⟩
  · simp [emit_seqs, virtio_gpu_fence_emit, worldAB, mkDev, U64_MOD]
  · simp [worldAB, mkDev]

/-- C5, amended: for successive successful calls of `virtio_gpu_fence_emit` on
one device, as long as the 64-bit counter does not wrap (the initial `sync_seq`
plus the number of calls is below `2 ^ 64`), the k-th fence gets the sequence
number `sync_seq + k`, so the numbers are strictly increasing without repeats,
and `sync_seq` ends up increased by the number of calls. -/
theorem emit_seqs_strictly_increasing (c : Consts) (vgdev : Nat)
    (calls : List (virtio_gpu_ctrl_hdr × Nat)) (w : World)
    (hnowrap : (w.devs vgdev).fence_drv.sync_seq + calls.length < U64_MOD) :
    ∃ seqs : List Nat,
      (emit_seqs c vgdev calls w).1 = seqs.map some ∧
      seqs.length = calls.length ∧
      (∀ k, k < calls.length →
        seqs[k]? = some ((w.devs vgdev).fence_drv.sync_seq + (k + 1))) ∧
      seqs.Pairwise (fun a b => a < b) ∧
      seqs.Nodup ∧
      (((emit_seqs c vgdev calls w).2).devs vgdev).fence_drv.sync_seq
          = (w.devs vgdev).fence_drv.sync_seq + calls.length := by
  obtain ⟨h1, h2⟩ := emit_seqs_range c vgdev calls w hnowrap
  refine ⟨List.range' ((w.devs vgdev).fence_drv.sync_seq + 1) calls.length, h1,
    by simp, ?_, ?_, ?_, h2⟩
  · intro k hk
    rw [List.getElem?_range' _ _ hk]
    congr 1
    omega
  · exact List.pairwise_lt_range' _ _
  · exact List.nodup_range' _ _

/-- C5 amended, at a concrete input: from `sync_seq = 2`, three emits hand out
3, 4 and 5 and leave `sync_seq = 5`. -/
theorem emit_seqs_strictly_increasing_witness :
    ((worldAB (mkDev 0 2 [])).devs 0).fence_drv.sync_seq + 3 < U64_MOD ∧
    (emit_seqs consts0 0 [(hdr0, 3), (hdr0, 4), (hdr0, 5)] (worldAB (mkDev 0 2 []))).1
      = [some 3, some 4, some 5] ∧
    ∃ seqs : List Nat,
      (emit_seqs consts0 0 [(hdr0, 3), (hdr0, 4), (hdr0, 5)] (worldAB (mkDev 0 2 []))).1
        = seqs.map some ∧
      seqs.Pairwise (fun a b => a < b) ∧
      (((emit_seqs consts0 0 [(hdr0, 3), (hdr0, 4), (hdr0, 5)]
          (worldAB (mkDev 0 2 []))).2).devs 0).fence_drv.sync_seq = 5 := by
  have hlt : ((worldAB (mkDev 0 2 [])).devs 0).fence_drv.sync_seq
      + [(hdr0, 3), (hdr0, 4), (hdr0, 5)].length < U64_MOD := by decide
  refine ⟨hlt, ?_, ?_⟩
  · simp [emit_seqs, virtio_gpu_fence_emit, worldAB, mkDev, U64_MOD]
  · obtain ⟨seqs, h1, _, _, h4, _, h6⟩ :=
      emit_seqs_strictly_increasing consts0 0 [(hdr0, 3), (hdr0, 4), (hdr0, 5)]
        (worldAB (mkDev 0 2 [])) hlt
    exact ⟨seqs, h1, h4, h6⟩

/-- C6, as stated, fails where the result of the wait primitive does not fit
an `int`: with `jiffies = 1000` and `last_activity = 2147484523` the timeout is
`2 ^ 31`; the uninterruptible wait primitive, whose condition is true at once,
returns this timeout, which is not negative; stored in `int r` it is
`- 2 ^ 31`, and `virtio_gpu_fence_wait_seq` with `intr = false` returns it: a
non-zero result, which is not the value the wait primitive returned. -/
theorem wait_seq_narrowing_counterexample :
    bigObs.timeout consts0 = 2147483648 ∧
    (∀ (intr : Bool) (t : Nat), 0 ≤ (bigObs.wait_event intr t).r) ∧
    (bigObs.wait_event false (bigObs.timeout consts0)).r = 2147483648 ∧
    virtio_gpu_fence_wait_seq consts0 (fun _ => [bigObs]) 0 1 false
      = some (-2147483648, 1) ∧
    (-2147483648 : Int) ≠ 0 ∧
    (-2147483648 : Int) ≠ (bigObs.wait_event false (bigObs.timeout consts0)).r := by
  have ht : bigObs.timeout consts0 = 2147483648 := by decide
  refine ⟨ht, ?_, ?_, by decide, by decide, ?_⟩
  · intro intr t
    exact Int.ofNat_nonneg t
  · rw [ht]
    rfl
  · rw [ht]
    decide

/-- C6, amended: when `virtio_gpu_fence_wait_seq` returns `r` after `n` calls of
the wait primitive, the observations split into iterations `pre` that all found
the target not reached and got a non-negative `int r` from the wait primitive,
and a last observation `o` at which either the loop condition found
`target_seq <= last_seq` and `r = 0`, or `int r`, the result of the wait
primitive converted from `long` to `int`, was the negative value `r`. If the
results of the wait primitive all fit an `int`, a non-zero result is the
negative value that the wait primitive itself returned, and if moreover the
wait primitive never returns a negative value for this `intr` (as is the case
for `intr = false`), then `r = 0`. -/
theorem wait_seq_ends_signaled_or_interrupted (c : Consts) (obs : Nat → List IterObs)
    (vgdev target_seq : Nat) (intr : Bool) (r : Int) (n : Nat)
    (h : virtio_gpu_fence_wait_seq c obs vgdev target_seq intr = some (r, n)) :
    ∃ (pre : List IterObs) (o : IterObs) (post : List IterObs),
      obs vgdev = pre ++ o :: post ∧
      (∀ x ∈ pre, target_seq > x.last_seq_cond ∧
        0 ≤ long_to_int (x.wait_event intr (x.timeout c)).r) ∧
      ((r = 0 ∧ target_seq ≤ o.last_seq_cond ∧ n = pre.length) ∨
       (r < 0 ∧ target_seq > o.last_seq_cond ∧
          r = long_to_int (o.wait_event intr (o.timeout c)).r ∧ n = pre.length + 1)) ∧
      ((∀ x ∈ obs vgdev, ∀ t, -2147483648 ≤ (x.wait_event intr t).r ∧
          (x.wait_event intr t).r < 2147483648) →
        (r ≠ 0 → r < 0 ∧ r = (o.wait_event intr (o.timeout c)).r) ∧
        ((∀ x ∈ obs vgdev, ∀ t, 0 ≤ (x.wait_event intr t).r) → r = 0)) := by
  obtain ⟨pre, o, post, hobs, hpre, hend⟩ :=
    wait_seq_loop_some c target_seq intr (obs vgdev) 0 r n h
  refine ⟨pre, o, post, hobs,
    fun x hx => wait_seq_iter_again c target_seq intr x (hpre x hx), ?_, ?_⟩
  · rcases hend with ⟨h1, h2, h3⟩ | ⟨h1, h3⟩
    · exact Or.inl ⟨h2, (wait_seq_iter_exit c target_seq intr o).mp h1, by omega⟩
    · obtain ⟨h4, h5, h6⟩ := wait_seq_iter_ret_neg c target_seq intr o r h1
      exact Or.inr ⟨h6, h4, h5, by omega⟩
  · intro hfit
    have ho : o ∈ obs vgdev := by simp [hobs]
    have hfo := hfit o ho (o.timeout c)
    have hsame : long_to_int (o.wait_event intr (o.timeout c)).r
        = (o.wait_event intr (o.timeout c)).r :=
      long_to_int_of_fits _ hfo.1 hfo.2
    constructor
    · intro hne
      rcases hend with ⟨_, h2, _⟩ | ⟨h1, _⟩
      · exact absurd h2 hne
      · obtain ⟨_, h5, h6⟩ := wait_seq_iter_ret_neg c target_seq intr o r h1
        exact ⟨h6, h5.trans hsame⟩
    · intro hnn
      rcases hend with ⟨_, h2, _⟩ | ⟨h1, _⟩
      · exact h2
      · obtain ⟨_, h5, h6⟩ := wait_seq_iter_ret_neg c target_seq intr o r h1
        have := hnn o ho (o.timeout c)
        rw [hsame] at h5
        omega

/-- C6 amended, at a concrete input: target 1, `intr = false`; a timeout in the
lockup condition, then a wakeup, then a loop test that finds `last_seq = 1`.
The function returns 0 after two calls of the wait primitive. -/
theorem wait_seq_ends_signaled_or_interrupted_witness :
    virtio_gpu_fence_wait_seq consts0 (fun _ => [lockupObs, wakeObs, doneObs]) 0 1 false
      = some (0, 2) ∧
    ∃ (pre : List IterObs) (o : IterObs) (post : List IterObs),
      [lockupObs, wakeObs, doneObs] = pre ++ o :: post ∧
      (∀ x ∈ pre, 1 > x.last_seq_cond ∧
        0 ≤ long_to_int (x.wait_event false (x.timeout consts0)).r) ∧
      (((0 : Int) = 0 ∧ 1 ≤ o.last_seq_cond ∧ 2 = pre.length) ∨
       ((0 : Int) < 0 ∧ 1 > o.last_seq_cond ∧
          0 = long_to_int (o.wait_event false (o.timeout consts0)).r ∧
          2 = pre.length + 1)) ∧
      ((∀ x ∈ [lockupObs, wakeObs, doneObs], ∀ t,
          -2147483648 ≤ (x.wait_event false t).r ∧
          (x.wait_event false t).r < 2147483648) →
        ((0 : Int) ≠ 0 → (0 : Int) < 0 ∧
          0 = (o.wait_event false (o.timeout consts0)).r) ∧
        ((∀ x ∈ [lockupObs, wakeObs, doneObs], ∀ t, 0 ≤ (x.wait_event false t).r) →
          (0 : Int) = 0)) :=
  have h : virtio_gpu_fence_wait_seq consts0
      (fun _ => [lockupObs, wakeObs, doneObs]) 0 1 false = some (0, 2) := by decide
  ⟨h, wait_seq_ends_signaled_or_interrupted consts0
        (fun _ => [lockupObs, wakeObs, doneObs]) 0 1 false 0 2 h⟩

/-- C7: when, after iterations `pre` that all went round again, an iteration
finds the target not reached and the wait primitive leaves a negative value in
`int r`, `virtio_gpu_fence_wait` returns that value at once: the wait primitive
was called `pre.length + 1` times, whatever observations `post` would have
followed, and the world is returned as it was, so the fence keeps its sequence
and the counters are untouched. In particular, when the wait primitive reports
an interruption, a negative error number (which fits an `int`), that same
number is returned. -/
theorem wait_interrupted_returns_unchanged (c : Consts) (obs : Nat → List IterObs)
    (p : Nat) (f : virtio_gpu_fence) (intr : Bool) (w : World)
    (pre : List IterObs) (o : IterObs) (post : List IterObs)
    (hmem : w.mem p = some f)
    (hobs : obs f.vgdev = pre ++ o :: post)
    (hpre : ∀ x ∈ pre, wait_seq_iter c f.seq intr x = Step.again)
    (hcond : f.seq > o.last_seq_cond) :
    (long_to_int (o.wait_event intr (o.timeout c)).r < 0 →
      virtio_gpu_fence_wait c obs (some p) intr w
        = Outcome.returned
            (long_to_int (o.wait_event intr (o.timeout c)).r, pre.length + 1, w)) ∧
    ((o.wait_event intr (o.timeout c)).r < 0 →
      -2147483648 ≤ (o.wait_event intr (o.timeout c)).r →
      virtio_gpu_fence_wait c obs (some p) intr w
        = Outcome.returned ((o.wait_event intr (o.timeout c)).r, pre.length + 1, w)) := by
  have hgen : long_to_int (o.wait_event intr (o.timeout c)).r < 0 →
      virtio_gpu_fence_wait c obs (some p) intr w
        = Outcome.returned
            (long_to_int (o.wait_event intr (o.timeout c)).r, pre.length + 1, w) := by
    intro hneg
    have hloop : virtio_gpu_fence_wait_seq c obs f.vgdev f.seq intr
        = some (long_to_int (o.wait_event intr (o.timeout c)).r, pre.length + 1) := by
      unfold virtio_gpu_fence_wait_seq
      rw [hobs, wait_seq_loop_append c f.seq intr pre o post 0 hpre, wait_seq_loop,
        wait_seq_iter_interrupted c f.seq intr o hcond hneg]
      simp
    have hne : long_to_int (o.wait_event intr (o.timeout c)).r ≠ 0 := by omega
    simp [virtio_gpu_fence_wait, hmem, hloop, hne]
  refine ⟨hgen, ?_⟩
  intro hneg hfit
  have hsame : long_to_int (o.wait_event intr (o.timeout c)).r
      = (o.wait_event intr (o.timeout c)).r :=
    long_to_int_of_fits _ hfit (by omega)
  have := hgen (by rw [hsame]; exact hneg)
  rw [hsame] at this
  exact this

/-- C7 at a concrete input: an interruptible wait on fence A (sequence 1) first
times out, then is interrupted with -512; it returns -512 after two calls of
the wait primitive and fence A still has sequence 1. -/
theorem wait_interrupted_returns_unchanged_witness :
    (worldAB (mkDev 0 2 [])).mem 1 = some { kref := 1, vgdev := 0, seq := 1 } ∧
    (∀ x ∈ [lockupObs], wait_seq_iter consts0 1 true x = Step.again) ∧
    (1 : Nat) > intrObs.last_seq_cond ∧
    (intrObs.wait_event true (intrObs.timeout consts0)).r < 0 ∧
    virtio_gpu_fence_wait consts0 (fun _ => [lockupObs, intrObs, doneObs]) (some 1) true
        (worldAB (mkDev 0 2 []))
      = Outcome.returned (-512, 2, worldAB (mkDev 0 2 [])) :=
  have hpre : ∀ x ∈ [lockupObs], wait_seq_iter consts0 1 true x = Step.again := by
    intro x hx
    rw [List.mem_singleton.mp hx]
    decide
  ⟨rfl, hpre, by decide, by decide,
    (wait_interrupted_returns_unchanged consts0 (fun _ => [lockupObs, intrObs, doneObs]) 1
      { kref := 1, vgdev := 0, seq := 1 } true (worldAB (mkDev 0 2 []))
      [lockupObs] intrObs [doneObs] rfl rfl hpre (by decide)).2 (by decide) (by decide)⟩

/-- C8: if `virtio_gpu_fence_wait` on a fence at a valid address returns 0, the
fence holds the sentinel afterwards, and `virtio_gpu_fence_signaled` returns
true, changing nothing, in every world that holds the fence in that state; if
it returns a non-zero value, the world, and so `fence.seq`, is unchanged. -/
theorem wait_success_memoizes (c : Consts) (obs : Nat → List IterObs) (p : Nat)
    (f : virtio_gpu_fence) (intr : Bool) (w w1 : World) (r : Int) (n : Nat)
    (hmem : w.mem p = some f)
    (h : virtio_gpu_fence_wait c obs (some p) intr w = Outcome.returned (r, n, w1)) :
    (r = 0 →
      w1.mem p = some { f with seq := c.VIRTIO_GPU_FENCE_SIGNALED_SEQ } ∧
      ∀ w2 : World, w2.mem p = w1.mem p →
        virtio_gpu_fence_signaled c (some p) w2 = some (true, w2)) ∧
    (r ≠ 0 → w1 = w ∧ w1.mem p = some f) := by
  unfold virtio_gpu_fence_wait at h
  simp only [hmem] at h
  cases hres : virtio_gpu_fence_wait_seq c obs f.vgdev f.seq intr with
  | none => simp [hres] at h
  | some res =>
    obtain ⟨r1, n1⟩ := res
    simp only [hres] at h
    by_cases hr : r1 = 0
    · simp only [hr, ne_eq, not_true_eq_false, if_false, Outcome.returned.injEq,
        Prod.mk.injEq] at h
      obtain ⟨h1, _, h3⟩ := h
      constructor
      · intro _
        subst h3
        refine ⟨by simp, ?_⟩
        intro w2 hw2
        simp only [Function.update_same] at hw2
        simp [virtio_gpu_fence_signaled, hw2]
      · intro hne
        exact absurd h1.symm hne
    · simp only [ne_eq, hr, not_false_eq_true, if_true, Outcome.returned.injEq,
        Prod.mk.injEq] at h
      obtain ⟨h1, _, h3⟩ := h
      constructor
      · intro h0
        exact absurd (h1.trans h0) hr
      · intro _
        subst h3
        exact ⟨rfl, hmem⟩

/-- C8 at a concrete input: the wait on fence A (sequence 1) returns 0 once
`last_seq = 1` is observed, and fence A then holds the sentinel 0. -/
theorem wait_success_memoizes_witness :
    (worldAB (mkDev 0 2 [])).mem 1 = some { kref := 1, vgdev := 0, seq := 1 } ∧
    virtio_gpu_fence_wait consts0 (fun _ => [wakeObs, doneObs]) (some 1) false
        (worldAB (mkDev 0 2 []))
      = Outcome.returned (0, 1, worldA_waited) ∧
    worldA_waited.mem 1 = some { kref := 1, vgdev := 0, seq := 0 } ∧
    ∀ w2 : World, w2.mem 1 = worldA_waited.mem 1 →
        virtio_gpu_fence_signaled consts0 (some 1) w2 = some (true, w2) :=
  have h : virtio_gpu_fence_wait consts0 (fun _ => [wakeObs, doneObs]) (some 1) false
      (worldAB (mkDev 0 2 [])) = Outcome.returned (0, 1, worldA_waited) := rfl
  ⟨rfl, h,
    ((wait_success_memoizes consts0 (fun _ => [wakeObs, doneObs]) 1
      { kref := 1, vgdev := 0, seq := 1 } false (worldAB (mkDev 0 2 [])) worldA_waited
      0 1 rfl h).1 rfl).1,
    ((wait_success_memoizes consts0 (fun _ => [wakeObs, doneObs]) 1
      { kref := 1, vgdev := 0, seq := 1 } false (worldAB (mkDev 0 2 [])) worldA_waited
      0 1 rfl h).1 rfl).2⟩

/-- C9: `virtio_gpu_fence_wait` on a null fence returns `-EINVAL`, which is
-22, for both values of `intr` and whatever the observations are, without a
call of the wait primitive and with the world unchanged. -/
theorem wait_null_returns_einval (c : Consts) (obs : Nat → List IterObs)
    (intr : Bool) (w : World) :
    virtio_gpu_fence_wait c obs none intr w = Outcome.returned (-EINVAL, 0, w) ∧
    virtio_gpu_fence_wait c obs none intr w = Outcome.returned (-22, 0, w) ∧
    virtio_gpu_fence_wait c (fun _ => []) none intr w
      = virtio_gpu_fence_wait c obs none intr w :=
  ⟨rfl, rfl, rfl⟩

/-- C10: take a freshly emitted fence (count 1) and any sequence `ops` of `N`
calls of `virtio_gpu_fence_ref` and `N + 1` calls of `virtio_gpu_fence_unref`
made through non-null handles on it, each call made while a handle exists (the
number of handles, one plus the refs minus the unrefs so far, is positive
before every call, so no call is made at count 0). Then the whole run has a
result, `virtio_gpu_fence_destroy` ran exactly once, on the fence, and the
fence is freed; before the last call it had not run and the fence was
allocated; and the last call is an unref. Every unref leaves `NULL` in the
caller's handle, and the unref of a `NULL` handle changes nothing. -/
theorem fence_destroyed_once_on_last_unref (c : Consts) (vgdev : Nat)
    (cmd_hdr : virtio_gpu_ctrl_hdr) (p : Nat) (w : World) (ops : List RefOp) (N : Nat)
    (hrefs : ops.count RefOp.ref = N) (hunrefs : ops.count RefOp.unref = N + 1)
    (hlive : ∀ j, j < ops.length →
      (ops.take j).count RefOp.unref ≤ (ops.take j).count RefOp.ref) :
    ∃ w1 : World,
      ref_run p ops (virtio_gpu_fence_emit c vgdev cmd_hdr (some p) w).2.2.2 = some w1 ∧
      w1.destroyed = w.destroyed ++ [p] ∧
      w1.mem p = none ∧
      (∀ j, j < ops.length →
        ∃ w2 : World,
          ref_run p (ops.take j) (virtio_gpu_fence_emit c vgdev cmd_hdr (some p) w).2.2.2
            = some w2 ∧
          w2.destroyed = w.destroyed ∧ w2.mem p ≠ none) ∧
      ops.getLast? = some RefOp.unref ∧
      (∀ (h : Option Nat) (w3 : World) (res : Option Nat × World),
        virtio_gpu_fence_unref h w3 = some res → res.1 = none) ∧
      (∀ w3 : World, virtio_gpu_fence_unref none w3 = some (none, w3)) := by
  have hne : ops ≠ [] := by
    intro h
    rw [h] at hunrefs
    simp at hunrefs
  obtain ⟨init, last, rfl⟩ : ∃ init last, ops = init ++ [last] := by
    rcases List.eq_nil_or_concat ops with h | h
    · exact absurd h hne
    · obtain ⟨L, b, hL⟩ := h
      exact ⟨L, b, by rw [hL, List.concat_eq_append]⟩
  have hlen : (init ++ [last]).length = init.length + 1 := by simp
  have htake : ∀ j, j ≤ init.length → (init ++ [last]).take j = init.take j :=
    fun j hj => List.take_append_of_le_length hj
  have hmem0 : ((virtio_gpu_fence_emit c vgdev cmd_hdr (some p) w).2.2.2).mem p
      = some { kref := kref_init, vgdev := vgdev,
               seq := ((w.devs vgdev).fence_drv.sync_seq + 1) % U64_MOD } :=
    (emit_some c vgdev cmd_hdr p w).2
  have hdes0 : ((virtio_gpu_fence_emit c vgdev cmd_hdr (some p) w).2.2.2).destroyed
      = w.destroyed := by
    simp [virtio_gpu_fence_emit]
  have hpre : ∀ j, j ≤ init.length →
      ∃ (w2 : World) (f2 : virtio_gpu_fence),
        ref_run p (init.take j) (virtio_gpu_fence_emit c vgdev cmd_hdr (some p) w).2.2.2
          = some w2 ∧
        w2.mem p = some f2 ∧
        f2.kref = 1 + (init.take j).count RefOp.ref - (init.take j).count RefOp.unref ∧
        w2.destroyed = w.destroyed := by
    intro j hj
    obtain ⟨w2, f2, h1, h2, h3, h4⟩ :=
      ref_run_live p (init.take j) 0 _ _ hmem0 (by simp [kref_init]) (by
        intro i hi
        have hij : i ≤ j := by
          have := List.length_take_le j init
          omega
        have := hlive i (by omega)
        rw [htake i (by omega)] at this
        rw [List.take_take, Nat.min_eq_left hij]
        omega)
    exact ⟨w2, f2, h1, h2, by simpa using h3, h4.trans hdes0⟩
  obtain ⟨w2, f2, h1, h2, h3, h4⟩ := hpre init.length (le_refl _)
  rw [List.take_length] at h1 h3
  have hbal := hlive init.length (by omega)
  rw [htake _ (le_refl _), List.take_length] at hbal
  have hlast : last = RefOp.unref := by
    cases last with
    | unref => rfl
    | ref =>
      simp only [List.count_append, List.count_cons, List.count_nil] at hrefs hunrefs
      simp at hrefs hunrefs
      omega
  subst hlast
  have hcnt : init.count RefOp.ref = init.count RefOp.unref := by
    simp only [List.count_append, List.count_cons, List.count_nil] at hrefs hunrefs
    simp at hrefs hunrefs
    omega
  have hk : f2.kref = 1 := by
    rw [h3, hcnt]
    ring
  refine ⟨virtio_gpu_fence_destroy p
      { w2 with mem := Function.update w2.mem p
                         (some { f2 with kref := (kref_put f2.kref).1 }) },
    ?_, ?_, ?_, ?_, by simp, ?_, fun _ => rfl⟩
  · rw [ref_run_append, h1]
    simp [ref_run, virtio_gpu_fence_unref, h2, kref_put, hk]
  · simp [virtio_gpu_fence_destroy, h4]
  · simp [virtio_gpu_fence_destroy]
  · intro j hj
    obtain ⟨w3, f3, g1, g2, _, g4⟩ := hpre j (by omega)
    refine ⟨w3, ?_, g4, by simp [g2]⟩
    rw [htake j (by omega)]
    exact g1
  · intro h w3 res hres
    unfold virtio_gpu_fence_unref at hres
    cases h with
    | none =>
      simp only [Option.some.injEq] at hres
      rw [← hres]
    | some q =>
      cases hm : w3.mem q with
      | none => simp [hm] at hres
      | some f3 =>
        simp only [hm] at hres
        cases hb : (kref_put f3.kref).2 with
        | true =>
          simp only [hb, if_true, Option.some.injEq] at hres
          rw [← hres]
        | false =>
          simp only [hb, Bool.false_eq_true, if_false, Option.some.injEq] at hres
          rw [← hres]

/-- C10 at a concrete input, `N = 1`: a fence is emitted at address 3, then
ref, unref, unref. The destroy log holds the fence exactly once at the end and
is empty after the first two calls. -/
theorem fence_destroyed_once_on_last_unref_witness :
    [RefOp.ref, RefOp.unref, RefOp.unref].count RefOp.ref = 1 ∧
    [RefOp.ref, RefOp.unref, RefOp.unref].count RefOp.unref = 1 + 1 ∧
    (∀ j, j < [RefOp.ref, RefOp.unref, RefOp.unref].length →
      ([RefOp.ref, RefOp.unref, RefOp.unref].take j).count RefOp.unref
        ≤ ([RefOp.ref, RefOp.unref, RefOp.unref].take j).count RefOp.ref) ∧
    ∃ w1 : World,
      ref_run 3 [RefOp.ref, RefOp.unref, RefOp.unref]
        (virtio_gpu_fence_emit consts0 0 hdr0 (some 3) (worldAB (mkDev 0 2 []))).2.2.2
          = some w1 ∧
      w1.destroyed = [3] ∧ w1.mem 3 = none ∧
      ∃ w2 : World,
        ref_run 3 [RefOp.ref, RefOp.unref]
          (virtio_gpu_fence_emit consts0 0 hdr0 (some 3) (worldAB (mkDev 0 2 []))).2.2.2
            = some w2 ∧
        w2.destroyed = [] ∧ w2.mem 3 ≠ none := by
  have hlive : ∀ j, j < [RefOp.ref, RefOp.unref, RefOp.unref].length →
      ([RefOp.ref, RefOp.unref, RefOp.unref].take j).count RefOp.unref
        ≤ ([RefOp.ref, RefOp.unref, RefOp.unref].take j).count RefOp.ref := by
    decide
  refine ⟨by decide, by decide, hlive, ?_⟩
  obtain ⟨w1, h1, h2, h3, h4, _⟩ :=
    fence_destroyed_once_on_last_unref consts0 0 hdr0 3 (worldAB (mkDev 0 2 []))
      [RefOp.ref, RefOp.unref, RefOp.unref] 1 (by decide) (by decide) hlive
  obtain ⟨w2, g1, g2, g3⟩ := h4 2 (by decide)
  exact ⟨w1, h1, h2, h3, w2, g1, g2, g3⟩

/-- C11, as stated, fails: the drain fires event 11, whose fence at address 1
has two references, and the fence still has two references afterwards, not
one. -/
theorem event_process_no_unref_counterexample :
    (worldEv.mem 1).map (fun f => f.kref) = some 2 ∧
    (virtio_gpu_fence_event_process consts0 0 1 worldEv).map
        (fun res => (res.1, (res.2.mem 1).map (fun f => f.kref), res.2.destroyed))
      = some ([Call.seq_done 11, Call.list_del 11, Call.cleanup 11], some 2, []) ∧
    (2 : Int) ≠ 2 - 1 := by
  refine ⟨rfl, ?_, by decide⟩
  decide

/-- C11, amended: a drain of a list whose entries have null or valid fences
returns, and it releases no reference itself: for every entry that it fires,
the fence of the entry is still allocated and its reference count is the same
after the drain as before, as is that of every other fence, and
`virtio_gpu_fence_destroy` is not called. Releasing the event's reference is
left to the callbacks. -/
theorem event_process_keeps_refcounts (c : Consts) (vdev last_seq : Nat) (w : World)
    (hvalid : ∀ fe ∈ (w.devs vdev).fence_drv.event_list,
      ∀ p, fe.fence = some p → w.mem p ≠ none) :
    ∃ (log : List Call) (w1 : World),
      virtio_gpu_fence_event_process c vdev last_seq w = some (log, w1) ∧
      (∀ fe ∈ (w.devs vdev).fence_drv.event_list, reports_signaled c w fe = true →
        Call.cleanup fe.addr ∈ log ∧
        ∀ p f, fe.fence = some p → w.mem p = some f →
          ∃ f1, w1.mem p = some f1 ∧ f1.kref = f.kref) ∧
      (∀ q f, w.mem q = some f → ∃ f1, w1.mem q = some f1 ∧ f1.kref = f.kref) ∧
      w1.destroyed = w.destroyed := by
  obtain ⟨w1, hret, _⟩ := event_process_returns c vdev last_seq w hvalid
  obtain ⟨_, hdes, hmem, _⟩ := event_process_keeps c vdev last_seq w w1 _ hret
  have hall : ∀ q f, w.mem q = some f → ∃ f1, w1.mem q = some f1 ∧ f1.kref = f.kref := by
    intro q f hq
    obtain ⟨f1, h1, h2, _⟩ := hmem q f hq
    exact ⟨f1, h1, h2⟩
  refine ⟨_, w1, hret, ?_, hall, hdes⟩
  intro fe hfe hrep
  constructor
  · simp only [List.mem_flatMap, List.mem_filter]
    exact ⟨fe, ⟨hfe, hrep⟩, by simp [fired]⟩
  · intro p f _ hq
    exact hall p f hq

/-- C11 amended, at a concrete input: the drain fires event 11 and the fence at
address 1 keeps its two references. -/
theorem event_process_keeps_refcounts_witness :
    (∀ fe ∈ (worldEv.devs 0).fence_drv.event_list,
      ∀ p, fe.fence = some p → worldEv.mem p ≠ none) ∧
    reports_signaled consts0 worldEv { addr := 11, fence := some 1 } = true ∧
    ∃ (log : List Call) (w1 : World),
      virtio_gpu_fence_event_process consts0 0 1 worldEv = some (log, w1) ∧
      Call.cleanup 11 ∈ log ∧
      ∃ f1, w1.mem 1 = some f1 ∧ f1.kref = 2 := by
  have hv : ∀ fe ∈ (worldEv.devs 0).fence_drv.event_list,
      ∀ p, fe.fence = some p → worldEv.mem p ≠ none := by
    intro fe hfe p hp
    simp only [worldEv, mkDev, List.mem_singleton] at hfe
    subst hfe
    simp at hp
    subst hp
    simp [worldEv]
  have hrep : reports_signaled consts0 worldEv { addr := 11, fence := some 1 } = true := by
    decide
  refine ⟨hv, hrep, ?_⟩
  obtain ⟨log, w1, h1, h2, _, _⟩ := event_process_keeps_refcounts consts0 0 1 worldEv hv
  obtain ⟨h3, h4⟩ := h2 { addr := 11, fence := some 1 } (by simp [worldEv, mkDev]) hrep
  exact ⟨log, w1, h1, h3, h4 1 { kref := 2, vgdev := 0, seq := 1 } rfl rfl⟩

/-- C12: take an event list whose entries have null or valid fences and
pairwise different addresses. Over any sequence of advances of `last_seq` and
calls of `virtio_gpu_fence_event_process`, the run returns and `seq_done` and
`cleanup` are each called at most once per event; the list stays one with
valid fences and different addresses, so that the following holds for every
drain of the run. One drain leaves every entry that `virtio_gpu_fence_signaled`
reports unsignaled in the list and calls nothing for it, in particular every
entry whose fence holds a sequence that is not the sentinel and is above
`last_seq`; it fires every entry reported signaled, in particular every entry
whose fence has a sequence at most `last_seq`, and unlinks it; and a second
drain right after it logs nothing and leaves the list as it is. -/
theorem drains_fire_each_event_once (c : Consts) (vdev : Nat) (w : World)
    (hvalid : ∀ fe ∈ (w.devs vdev).fence_drv.event_list,
      ∀ p, fe.fence = some p → w.mem p ≠ none)
    (hnodup : (((w.devs vdev).fence_drv.event_list).map (fun fe => fe.addr)).Nodup) :
    (∀ steps : List DrainStep,
      ∃ (log : List Call) (w1 : World),
        drain_run c vdev steps w = some (log, w1) ∧
        (∀ a, log.count (Call.seq_done a) ≤ 1 ∧ log.count (Call.cleanup a) ≤ 1) ∧
        (∀ fe ∈ (w1.devs vdev).fence_drv.event_list,
          ∀ p, fe.fence = some p → w1.mem p ≠ none) ∧
        (((w1.devs vdev).fence_drv.event_list).map (fun fe => fe.addr)).Nodup) ∧
    (∀ last_seq : Nat,
      ∃ (log : List Call) (w1 : World),
        virtio_gpu_fence_event_process c vdev last_seq w = some (log, w1) ∧
        (∀ fe ∈ (w.devs vdev).fence_drv.event_list, reports_signaled c w fe = false →
          fe ∈ (w1.devs vdev).fence_drv.event_list ∧
          Call.seq_done fe.addr ∉ log ∧ Call.cleanup fe.addr ∉ log) ∧
        (∀ fe ∈ (w.devs vdev).fence_drv.event_list, reports_signaled c w fe = true →
          Call.seq_done fe.addr ∈ log ∧ Call.cleanup fe.addr ∈ log ∧
          fe ∉ (w1.devs vdev).fence_drv.event_list) ∧
        (∀ fe ∈ (w.devs vdev).fence_drv.event_list, ∀ p f,
          fe.fence = some p → w.mem p = some f →
          f.seq ≤ (w.devs f.vgdev).fence_drv.last_seq →
          Call.seq_done fe.addr ∈ log ∧ Call.cleanup fe.addr ∈ log) ∧
        (∀ fe ∈ (w.devs vdev).fence_drv.event_list, ∀ p f,
          fe.fence = some p → w.mem p = some f →
          f.seq ≠ c.VIRTIO_GPU_FENCE_SIGNALED_SEQ →
          (w.devs f.vgdev).fence_drv.last_seq < f.seq →
          fe ∈ (w1.devs vdev).fence_drv.event_list ∧
          Call.seq_done fe.addr ∉ log ∧ Call.cleanup fe.addr ∉ log) ∧
        (∀ last_seq2 : Nat,
          ∃ w2 : World,
            virtio_gpu_fence_event_process c vdev last_seq2 w1 = some ([], w2) ∧
            (w2.devs vdev).fence_drv.event_list
              = (w1.devs vdev).fence_drv.event_list)) := by
  constructor
  · intro steps
    obtain ⟨log, w1, h1, h2, h3, h4⟩ := drain_run_counts c vdev steps w hvalid
    have hle := List.nodup_iff_count_le_one.mp hnodup
    refine ⟨log, w1, h1, ?_, h4, (h3.map _).nodup hnodup⟩
    intro a
    have := h2 a
    have := hle a
    omega
  · intro last_seq
    obtain ⟨w1, hret, hl, hkeep, hrep⟩ := event_process_frame c vdev last_seq w hvalid
    have hinj := List.inj_on_of_nodup_map hnodup
    have hfired : ∀ fe ∈ (w.devs vdev).fence_drv.event_list,
        reports_signaled c w fe = true →
        Call.seq_done fe.addr ∈ (((w.devs vdev).fence_drv.event_list).filter
            (fun fe => reports_signaled c w fe)).flatMap fired ∧
        Call.cleanup fe.addr ∈ (((w.devs vdev).fence_drv.event_list).filter
            (fun fe => reports_signaled c w fe)).flatMap fired := by
      intro fe hfe hr
      simp only [List.mem_flatMap, List.mem_filter]
      exact ⟨⟨fe, ⟨hfe, hr⟩, by simp [fired]⟩, ⟨fe, ⟨hfe, hr⟩, by simp [fired]⟩⟩
    have hunfired : ∀ fe ∈ (w.devs vdev).fence_drv.event_list,
        reports_signaled c w fe = false →
        fe ∈ (w1.devs vdev).fence_drv.event_list ∧
        Call.seq_done fe.addr ∉ (((w.devs vdev).fence_drv.event_list).filter
            (fun fe => reports_signaled c w fe)).flatMap fired ∧
        Call.cleanup fe.addr ∉ (((w.devs vdev).fence_drv.event_list).filter
            (fun fe => reports_signaled c w fe)).flatMap fired := by
      intro fe hfe hr
      refine ⟨?_, ?_, ?_⟩
      · rw [hl]
        exact List.mem_filter.mpr ⟨hfe, by simp [hr]⟩
      · intro hmem
        simp only [List.mem_flatMap, List.mem_filter] at hmem
        obtain ⟨x, ⟨hx, hxr⟩, hcall⟩ := hmem
        have hxa : x.addr = fe.addr := by
          have hafx : fe.addr = x.addr := by simpa [fired] using hcall
          exact hafx.symm
        have := hinj hx hfe hxa
        rw [this, hr] at hxr
        cases hxr
      · intro hmem
        simp only [List.mem_flatMap, List.mem_filter] at hmem
        obtain ⟨x, ⟨hx, hxr⟩, hcall⟩ := hmem
        have hxa : x.addr = fe.addr := by
          have hafx : fe.addr = x.addr := by simpa [fired] using hcall
          exact hafx.symm
        have := hinj hx hfe hxa
        rw [this, hr] at hxr
        cases hxr
    refine ⟨_, w1, hret, hunfired, ?_, ?_, ?_, ?_⟩
    · intro fe hfe hr
      refine ⟨(hfired fe hfe hr).1, (hfired fe hfe hr).2, ?_⟩
      rw [hl]
      intro hmem
      have := (List.mem_filter.mp hmem).2
      simp [hr] at this
    · intro fe hfe p f hp hm hle
      have hr : reports_signaled c w fe = true := by
        rw [reports_signaled_eq]
        simp [hp, hm, hle]
      exact hfired fe hfe hr
    · intro fe hfe p f hp hm hne hlt
      have hr : reports_signaled c w fe = false := by
        rw [reports_signaled_eq]
        have hnle : ¬ f.seq ≤ (w.devs f.vgdev).fence_drv.last_seq := by omega
        simp [hp, hm, hne, hnle]
      exact hunfired fe hfe hr
    · intro last_seq2
      have hv1 : ∀ fe ∈ (w1.devs vdev).fence_drv.event_list,
          ∀ p, fe.fence = some p → w1.mem p ≠ none := by
        intro fe hfe p hp
        rw [hl] at hfe
        exact hkeep p (hvalid fe (List.mem_of_mem_filter hfe) p hp)
      obtain ⟨w2, hret2, hl2, _, _⟩ := event_process_frame c vdev last_seq2 w1 hv1
      have hfun : (fun fe => reports_signaled c w1 fe) = (fun fe => reports_signaled c w fe) :=
        funext hrep
      have hfun2 : (fun fe => !reports_signaled c w1 fe)
          = (fun fe => !reports_signaled c w fe) :=
        funext (fun x => by rw [hrep x])
      rw [hfun, hl] at hret2
      rw [hfun2, hl] at hl2
      have hnil : List.filter (fun fe => reports_signaled c w fe)
          (List.filter (fun fe => !reports_signaled c w fe)
            (w.devs vdev).fence_drv.event_list) = [] := by
        rw [List.filter_eq_nil_iff]
        intro a ha
        have := (List.mem_filter.mp ha).2
        simpa using this
      have hself : List.filter (fun fe => !reports_signaled c w fe)
          (List.filter (fun fe => !reports_signaled c w fe)
            (w.devs vdev).fence_drv.event_list)
          = List.filter (fun fe => !reports_signaled c w fe)
            (w.devs vdev).fence_drv.event_list := by
        rw [List.filter_eq_self]
        intro a ha
        exact (List.mem_filter.mp ha).2
      rw [hnil] at hret2
      rw [hself] at hl2
      exact ⟨w2, hret2, hl2.trans hl.symm⟩

/-- C12 at a concrete input, the scenario of the spec: event 11 is bound to a
fence with sequence 1 while `last_seq = 0`. A drain fires nothing; after the
counter advances to 1 the next drain fires the event, and a further drain
fires nothing: over the whole run `seq_done(11)` is logged once. -/
theorem drains_fire_each_event_once_witness :
    (∀ fe ∈ (worldPending.devs 0).fence_drv.event_list,
      ∀ p, fe.fence = some p → worldPending.mem p ≠ none) ∧
    (((worldPending.devs 0).fence_drv.event_list).map (fun fe => fe.addr)).Nodup ∧
    (drain_run consts0 0 [DrainStep.drain] worldPending).map (fun res => res.1)
      = some [] ∧
    (drain_run consts0 0
        [DrainStep.drain, DrainStep.advance 0 1 50, DrainStep.drain, DrainStep.drain]
        worldPending).map (fun res => res.1)
      = some [Call.seq_done 11, Call.list_del 11, Call.cleanup 11] ∧
    ∃ (log : List Call) (w1 : World),
      drain_run consts0 0
        [DrainStep.drain, DrainStep.advance 0 1 50, DrainStep.drain, DrainStep.drain]
        worldPending = some (log, w1) ∧
      (∀ a, log.count (Call.seq_done a) ≤ 1 ∧ log.count (Call.cleanup a) ≤ 1) := by
  have hv : ∀ fe ∈ (worldPending.devs 0).fence_drv.event_list,
      ∀ p, fe.fence = some p → worldPending.mem p ≠ none := by
    intro fe hfe p hp
    simp only [worldPending, mkDev, List.mem_singleton] at hfe
    subst hfe
    simp at hp
    subst hp
    simp [worldPending]
  have hn : (((worldPending.devs 0).fence_drv.event_list).map (fun fe => fe.addr)).Nodup := by
    decide
  refine ⟨hv, hn, by decide, by decide, ?_⟩
  obtain ⟨log, w1, h1, h2, _⟩ :=
    (drains_fire_each_event_once consts0 0 worldPending hv hn).1
      [DrainStep.drain, DrainStep.advance 0 1 50, DrainStep.drain, DrainStep.drain]
  exact ⟨log, w1, h1, h2⟩

/-- C13: `virtio_gpu_fence_seq_signaled` returns true exactly when
`seq <= last_seq`, whatever the sequence and the counters are, and changes
neither the devices nor the fences. So with `last_seq = N` it is true for every
`seq <= N` and false for every `seq > N`, and it is monotone: signaled for `s2`
and `s1 <= s2` give signaled for `s1`. -/
theorem seq_signaled_iff_le (vgdev seq : Nat) (w : World) :
    ((virtio_gpu_fence_seq_signaled vgdev seq w).1 = true ↔
        seq ≤ (w.devs vgdev).fence_drv.last_seq) ∧
    (virtio_gpu_fence_seq_signaled vgdev seq w).2.devs = w.devs ∧
    (virtio_gpu_fence_seq_signaled vgdev seq w).2.mem = w.mem ∧
    (∀ N, (w.devs vgdev).fence_drv.last_seq = N →
      (seq ≤ N → (virtio_gpu_fence_seq_signaled vgdev seq w).1 = true) ∧
      (seq > N → (virtio_gpu_fence_seq_signaled vgdev seq w).1 = false)) ∧
    (∀ s1, s1 ≤ seq → (virtio_gpu_fence_seq_signaled vgdev seq w).1 = true →
      (virtio_gpu_fence_seq_signaled vgdev s1 w).1 = true) := by
  have hiff : ∀ s, (virtio_gpu_fence_seq_signaled vgdev s w).1 = true ↔
      s ≤ (w.devs vgdev).fence_drv.last_seq := by
    intro s
    simp [virtio_gpu_fence_seq_signaled]
  refine ⟨hiff seq, rfl, rfl, ?_, ?_⟩
  · intro N hN
    constructor
    · intro h
      exact (hiff seq).mpr (by omega)
    · intro h
      cases hb : (virtio_gpu_fence_seq_signaled vgdev seq w).1 with
      | false => rfl
      | true =>
        have := (hiff seq).mp hb
        omega
  · intro s1 hle h
    have := (hiff seq).mp h
    exact (hiff s1).mpr (by omega)

/-- C13 at a concrete input: with `last_seq = 5`, sequence 5 is signaled,
sequence 6 is not, and sequence 3, below 5, is signaled as well. -/
theorem seq_signaled_iff_le_witness :
    ((worldAB (mkDev 5 9 [])).devs 0).fence_drv.last_seq = 5 ∧
    (virtio_gpu_fence_seq_signaled 0 5 (worldAB (mkDev 5 9 []))).1 = true ∧
    (virtio_gpu_fence_seq_signaled 0 6 (worldAB (mkDev 5 9 []))).1 = false ∧
    (virtio_gpu_fence_seq_signaled 0 3 (worldAB (mkDev 5 9 []))).1 = true :=
  ⟨rfl,
   ((seq_signaled_iff_le 0 5 (worldAB (mkDev 5 9 []))).2.2.2.1 5 rfl).1 (by decide),
   ((seq_signaled_iff_le 0 6 (worldAB (mkDev 5 9 []))).2.2.2.1 5 rfl).2 (by decide),
   (seq_signaled_iff_le 0 5 (worldAB (mkDev 5 9 []))).2.2.2.2 3 (by decide)
     (((seq_signaled_iff_le 0 5 (worldAB (mkDev 5 9 []))).2.2.2.1 5 rfl).1 (by decide))⟩

/-- C14: after a successful `virtio_gpu_fence_emit` on a header whose `flags`
field is four bytes, with a flag constant that fits 32 bits: the function
returns 0 and hands out the new address; the new fence has reference count 1,
the owner `vgdev` and the sequence number that `sync_seq` now holds, the old
`sync_seq` plus one wrapped to 64 bits; `fence_id` is the eight-byte
little-endian encoding of that number and decodes to it; and the decoded
`flags` are the old ones or-ed with `VIRTIO_GPU_FLAG_FENCE`, so bit by bit the
flag's bits are set and every other bit is as before. -/
theorem emit_stamps_fence_and_header (c : Consts) (vgdev : Nat)
    (cmd_hdr : virtio_gpu_ctrl_hdr) (p : Nat) (w : World)
    (hlen : cmd_hdr.flags.length = 4) (hbytes : ∀ b ∈ cmd_hdr.flags, b < 256)
    (hflag : c.VIRTIO_GPU_FLAG_FENCE < 2 ^ 32) :
    (virtio_gpu_fence_emit c vgdev cmd_hdr (some p) w).1 = 0 ∧
    (virtio_gpu_fence_emit c vgdev cmd_hdr (some p) w).2.2.1 = some p ∧
    ∃ f : virtio_gpu_fence,
      (virtio_gpu_fence_emit c vgdev cmd_hdr (some p) w).2.2.2.mem p = some f ∧
      f.kref = 1 ∧ f.vgdev = vgdev ∧
      f.seq = ((virtio_gpu_fence_emit c vgdev cmd_hdr (some p) w).2.2.2.devs
                vgdev).fence_drv.sync_seq ∧
      f.seq = ((w.devs vgdev).fence_drv.sync_seq + 1) % U64_MOD ∧
      (virtio_gpu_fence_emit c vgdev cmd_hdr (some p) w).2.1.fence_id
        = cpu_to_le 8 f.seq ∧
      le_to_cpu (virtio_gpu_fence_emit c vgdev cmd_hdr (some p) w).2.1.fence_id = f.seq ∧
      (virtio_gpu_fence_emit c vgdev cmd_hdr (some p) w).2.1.flags.length = 4 ∧
      le_to_cpu (virtio_gpu_fence_emit c vgdev cmd_hdr (some p) w).2.1.flags
        = le_to_cpu cmd_hdr.flags ||| c.VIRTIO_GPU_FLAG_FENCE ∧
      (∀ i : Nat,
        (le_to_cpu (virtio_gpu_fence_emit c vgdev cmd_hdr (some p) w).2.1.flags).testBit i
          = ((le_to_cpu cmd_hdr.flags).testBit i ||
              c.VIRTIO_GPU_FLAG_FENCE.testBit i)) := by
  obtain ⟨hsync, hmem⟩ := emit_some c vgdev cmd_hdr p w
  have hid : (virtio_gpu_fence_emit c vgdev cmd_hdr (some p) w).2.1.fence_id
      = cpu_to_le 8 (((w.devs vgdev).fence_drv.sync_seq + 1) % U64_MOD) := by
    simp [virtio_gpu_fence_emit]
  have hfl : (virtio_gpu_fence_emit c vgdev cmd_hdr (some p) w).2.1.flags
      = le_or cmd_hdr.flags (cpu_to_le 4 c.VIRTIO_GPU_FLAG_FENCE) := by
    simp [virtio_gpu_fence_emit]
  have hdec : le_to_cpu (le_or cmd_hdr.flags (cpu_to_le 4 c.VIRTIO_GPU_FLAG_FENCE))
      = le_to_cpu cmd_hdr.flags ||| c.VIRTIO_GPU_FLAG_FENCE := by
    rw [le_to_cpu_le_or cmd_hdr.flags _
      (by rw [hlen, (cpu_to_le_bytes 4 _).1]) hbytes (cpu_to_le_bytes 4 _).2,
      le_to_cpu_cpu_to_le, Nat.mod_eq_of_lt (by
        have : (256 : Nat) ^ 4 = 2 ^ 32 := by norm_num
        omega)]
  refine ⟨rfl, rfl, _, hmem, rfl, rfl, hsync.symm, rfl, hid, ?_, ?_, ?_, ?_⟩
  · rw [hid, le_to_cpu_cpu_to_le]
    have h8 : (256 : Nat) ^ 8 = U64_MOD := by norm_num [U64_MOD]
    rw [h8, Nat.mod_mod]
  · rw [hfl]
    simp [le_or, hlen, (cpu_to_le_bytes 4 c.VIRTIO_GPU_FLAG_FENCE).1]
  · rw [hfl, hdec]
  · intro i
    rw [hfl, hdec, Nat.testBit_or]

/-- C14 at a concrete input: a header whose flags are 2, stamped by an emit on
a device with `sync_seq = 2`. The fence gets sequence 3, `fence_id` decodes to
3 and the flags become 3: bit 0 is set, bit 1 is kept. -/
theorem emit_stamps_fence_and_header_witness :
    ((({ flags := [2, 0, 0, 0], fence_id := [0, 0, 0, 0, 0, 0, 0, 0] } :
        virtio_gpu_ctrl_hdr).flags.length = 4) ∧
      consts0.VIRTIO_GPU_FLAG_FENCE < 2 ^ 32) ∧
    ∃ f : virtio_gpu_fence,
      (virtio_gpu_fence_emit consts0 0
          { flags := [2, 0, 0, 0], fence_id := [0, 0, 0, 0, 0, 0, 0, 0] } (some 3)
          (worldAB (mkDev 0 2 []))).2.2.2.mem 3 = some f ∧
      f.kref = 1 ∧ f.vgdev = 0 ∧ f.seq = 3 ∧
      le_to_cpu (virtio_gpu_fence_emit consts0 0
          { flags := [2, 0, 0, 0], fence_id := [0, 0, 0, 0, 0, 0, 0, 0] } (some 3)
          (worldAB (mkDev 0 2 []))).2.1.fence_id = 3 ∧
      le_to_cpu (virtio_gpu_fence_emit consts0 0
          { flags := [2, 0, 0, 0], fence_id := [0, 0, 0, 0, 0, 0, 0, 0] } (some 3)
          (worldAB (mkDev 0 2 []))).2.1.flags = 3 := by
  have hb : ∀ b ∈ ({ flags := [2, 0, 0, 0], fence_id := [0, 0, 0, 0, 0, 0, 0, 0] } :
      virtio_gpu_ctrl_hdr).flags, b < 256 := by decide
  refine ⟨⟨rfl, by decide⟩, ?_⟩
  obtain ⟨_, _, f, h1, h2, h3, _, h5, _, h7, _, h9, _⟩ :=
    emit_stamps_fence_and_header consts0 0
      { flags := [2, 0, 0, 0], fence_id := [0, 0, 0, 0, 0, 0, 0, 0] } 3
      (worldAB (mkDev 0 2 [])) rfl hb (by decide)
  have hseq : f.seq = 3 := h5.trans (by decide)
  exact ⟨f, h1, h2, h3, hseq, h7.trans hseq, h9.trans (by decide)⟩

/-- C15, as stated, fails at the most negative signed difference: with 64-bit
words, the window 125, `jiffies = 125` and `last_activity = 2 ^ 63`,
`time_after` holds and the timeout is `2 ^ 63`, which read as a signed long is
`- 2 ^ 63`, not a positive number. -/
theorem wait_timeout_signed_counterexample :
    time_after consts0.BITS_PER_LONG (2 ^ 63)
      ((125 + 2 ^ 64 - consts0.VIRTIO_GPU_FENCE_JIFFIES_TIMEOUT % 2 ^ 64) % 2 ^ 64) = true ∧
    wait_timeout consts0 125 (2 ^ 63) (2 ^ 63) = 2 ^ 63 ∧
    to_long consts0.BITS_PER_LONG (wait_timeout consts0 125 (2 ^ 63) (2 ^ 63)) = -(2 ^ 63) ∧
    ¬ (0 < to_long consts0.BITS_PER_LONG (wait_timeout consts0 125 (2 ^ 63) (2 ^ 63))) := by
  have h1 : wait_timeout consts0 125 (2 ^ 63) (2 ^ 63) = 2 ^ 63 := by decide
  have h2 : to_long consts0.BITS_PER_LONG (2 ^ 63) = -(2 ^ 63) := by decide
  refine ⟨by decide, h1, ?_, ?_⟩
  · rw [h1, h2]
  · rw [h1, h2]
    decide

/-- C15, amended: for words of `BITS_PER_LONG > 0` bits, `jiffies` and
`last_activity` being such words, and with `t0 = jiffies - W` wrapped: if
`last_activity` is after `t0` in the sense of `time_after`, the timeout is
`last_activity - t0` wrapped, otherwise it is 1. So the timeout is always at
least 1 and at most `2 ^ (BITS_PER_LONG - 1)`, never 0; read as a signed long it
is positive except when it is exactly `2 ^ (BITS_PER_LONG - 1)`, where it is
negative. And for a window `W` of at most `2 ^ (BITS_PER_LONG - 1)`, whenever
the elapsed time `jiffies - last_activity` is below `W`, the timeout is
`W` minus the elapsed time, which lies between 1 and `W`. -/
theorem wait_timeout_bounds (c : Consts) (now la : Nat)
    (hbits : 0 < c.BITS_PER_LONG)
    (hnow : now < 2 ^ c.BITS_PER_LONG) (hla : la < 2 ^ c.BITS_PER_LONG) :
    (time_after c.BITS_PER_LONG la
        ((now + 2 ^ c.BITS_PER_LONG
            - c.VIRTIO_GPU_FENCE_JIFFIES_TIMEOUT % 2 ^ c.BITS_PER_LONG)
          % 2 ^ c.BITS_PER_LONG) = true →
      wait_timeout c now la la =
        (la + 2 ^ c.BITS_PER_LONG
          - (now + 2 ^ c.BITS_PER_LONG
              - c.VIRTIO_GPU_FENCE_JIFFIES_TIMEOUT % 2 ^ c.BITS_PER_LONG)
            % 2 ^ c.BITS_PER_LONG) % 2 ^ c.BITS_PER_LONG) ∧
    (time_after c.BITS_PER_LONG la
        ((now + 2 ^ c.BITS_PER_LONG
            - c.VIRTIO_GPU_FENCE_JIFFIES_TIMEOUT % 2 ^ c.BITS_PER_LONG)
          % 2 ^ c.BITS_PER_LONG) = false →
      wait_timeout c now la la = 1) ∧
    1 ≤ wait_timeout c now la la ∧
    wait_timeout c now la la ≤ 2 ^ (c.BITS_PER_LONG - 1) ∧
    (wait_timeout c now la la ≠ 2 ^ (c.BITS_PER_LONG - 1) →
      0 < to_long c.BITS_PER_LONG (wait_timeout c now la la)) ∧
    (wait_timeout c now la la = 2 ^ (c.BITS_PER_LONG - 1) →
      to_long c.BITS_PER_LONG (wait_timeout c now la la) < 0) ∧
    (c.VIRTIO_GPU_FENCE_JIFFIES_TIMEOUT ≤ 2 ^ (c.BITS_PER_LONG - 1) →
      (now + 2 ^ c.BITS_PER_LONG - la) % 2 ^ c.BITS_PER_LONG
        < c.VIRTIO_GPU_FENCE_JIFFIES_TIMEOUT →
      wait_timeout c now la la =
        c.VIRTIO_GPU_FENCE_JIFFIES_TIMEOUT
          - (now + 2 ^ c.BITS_PER_LONG - la) % 2 ^ c.BITS_PER_LONG ∧
      1 ≤ wait_timeout c now la la ∧
      wait_timeout c now la la ≤ c.VIRTIO_GPU_FENCE_JIFFIES_TIMEOUT) := by
  have hm : 2 ^ c.BITS_PER_LONG = 2 * 2 ^ (c.BITS_PER_LONG - 1) := by
    obtain ⟨k, hk⟩ : ∃ k, c.BITS_PER_LONG = k + 1 := ⟨c.BITS_PER_LONG - 1, by omega⟩
    rw [hk]
    simp [pow_succ, Nat.mul_comm]
  have hpos : 0 < 2 ^ (c.BITS_PER_LONG - 1) := Nat.pow_pos (by decide)
  obtain ⟨hcore1, hcore2⟩ :=
    timeout_core (2 ^ c.BITS_PER_LONG) (2 ^ (c.BITS_PER_LONG - 1)) now la
      c.VIRTIO_GPU_FENCE_JIFFIES_TIMEOUT hm hpos hnow hla
  have hta : ∀ b, time_after c.BITS_PER_LONG la b = true ↔
      2 ^ (c.BITS_PER_LONG - 1)
        ≤ (b + 2 ^ c.BITS_PER_LONG - la % 2 ^ c.BITS_PER_LONG) % 2 ^ c.BITS_PER_LONG := by
    intro b
    simp [time_after]
  have htrue : time_after c.BITS_PER_LONG la
        ((now + 2 ^ c.BITS_PER_LONG
            - c.VIRTIO_GPU_FENCE_JIFFIES_TIMEOUT % 2 ^ c.BITS_PER_LONG)
          % 2 ^ c.BITS_PER_LONG) = true →
      wait_timeout c now la la =
        (la + 2 ^ c.BITS_PER_LONG
          - (now + 2 ^ c.BITS_PER_LONG
              - c.VIRTIO_GPU_FENCE_JIFFIES_TIMEOUT % 2 ^ c.BITS_PER_LONG)
            % 2 ^ c.BITS_PER_LONG) % 2 ^ c.BITS_PER_LONG := by
    intro h
    simp only [wait_timeout, h, if_true]
  have hfalse : time_after c.BITS_PER_LONG la
        ((now + 2 ^ c.BITS_PER_LONG
            - c.VIRTIO_GPU_FENCE_JIFFIES_TIMEOUT % 2 ^ c.BITS_PER_LONG)
          % 2 ^ c.BITS_PER_LONG) = false →
      wait_timeout c now la la = 1 := by
    intro h
    simp only [wait_timeout, h, Bool.false_eq_true, if_false]
  have hrange : 1 ≤ wait_timeout c now la la ∧
      wait_timeout c now la la ≤ 2 ^ (c.BITS_PER_LONG - 1) := by
    cases hb : time_after c.BITS_PER_LONG la
        ((now + 2 ^ c.BITS_PER_LONG
            - c.VIRTIO_GPU_FENCE_JIFFIES_TIMEOUT % 2 ^ c.BITS_PER_LONG)
          % 2 ^ c.BITS_PER_LONG) with
    | true =>
      rw [htrue hb]
      exact hcore1 ((hta _).mp hb)
    | false =>
      rw [hfalse hb]
      exact ⟨le_refl 1, hpos⟩
  obtain ⟨hsign1, hsign2⟩ :=
    to_long_sign c.BITS_PER_LONG (wait_timeout c now la la) hbits hrange.1 hrange.2
  refine ⟨htrue, hfalse, hrange.1, hrange.2, hsign1, hsign2, ?_⟩
  intro hW he
  obtain ⟨hd, hx⟩ := hcore2 hW he
  have hb := (hta _).mpr hd
  rw [htrue hb, hx]
  refine ⟨rfl, ?_, ?_⟩ <;> omega

/-- C15 amended, at a concrete input: 64-bit words, window 125, `jiffies = 1000`
and `last_activity = 900`. The elapsed time is 100, the timeout is 25. -/
theorem wait_timeout_bounds_witness :
    (0 < consts0.BITS_PER_LONG ∧ 1000 < 2 ^ consts0.BITS_PER_LONG ∧
      900 < 2 ^ consts0.BITS_PER_LONG) ∧
    (1000 + 2 ^ consts0.BITS_PER_LONG - 900) % 2 ^ consts0.BITS_PER_LONG
      < consts0.VIRTIO_GPU_FENCE_JIFFIES_TIMEOUT ∧
    wait_timeout consts0 1000 900 900 = 25 ∧
    1 ≤ wait_timeout consts0 1000 900 900 ∧
    0 < to_long consts0.BITS_PER_LONG (wait_timeout consts0 1000 900 900) :=
  have hb : 0 < consts0.BITS_PER_LONG := by decide
  have hn : 1000 < 2 ^ consts0.BITS_PER_LONG := by decide
  have hl : 900 < 2 ^ consts0.BITS_PER_LONG := by decide
  have he : (1000 + 2 ^ consts0.BITS_PER_LONG - 900) % 2 ^ consts0.BITS_PER_LONG
      < consts0.VIRTIO_GPU_FENCE_JIFFIES_TIMEOUT := by decide
  ⟨⟨hb, hn, hl⟩, he,
   ((wait_timeout_bounds consts0 1000 900 hb hn hl).2.2.2.2.2.2 (by decide) he).1.trans
     (by decide),
   (wait_timeout_bounds consts0 1000 900 hb hn hl).2.2.1,
   (wait_timeout_bounds consts0 1000 900 hb hn hl).2.2.2.2.1 (by decide)⟩

/-- C16, as stated, fails where the 64-bit counter wraps: with
`last_seq = 1` and `sync_seq = 2 ^ 64 - 1` the invariant holds, and after a
successful emit `sync_seq` is 0, below `last_seq`. -/
theorem emit_wrap_breaks_invariant_counterexample :
    fence_inv (worldAB (mkDev 1 (2 ^ 64 - 1) [])) 0 ∧
    (virtio_gpu_fence_emit consts0 0 hdr0 (some 3)
        (worldAB (mkDev 1 (2 ^ 64 - 1) []))).1 = 0 ∧
    (((virtio_gpu_fence_emit consts0 0 hdr0 (some 3)
        (worldAB (mkDev 1 (2 ^ 64 - 1) []))).2.2.2).devs 0).fence_drv.sync_seq = 0 ∧
    ¬ fence_inv (virtio_gpu_fence_emit consts0 0 hdr0 (some 3)
        (worldAB (mkDev 1 (2 ^ 64 - 1) []))).2.2.2 0 := by
  have h : (((virtio_gpu_fence_emit consts0 0 hdr0 (some 3)
      (worldAB (mkDev 1 (2 ^ 64 - 1) []))).2.2.2).devs 0).fence_drv.sync_seq = 0 := by
    simp [virtio_gpu_fence_emit, worldAB, mkDev, U64_MOD]
  have hl : (((virtio_gpu_fence_emit consts0 0 hdr0 (some 3)
      (worldAB (mkDev 1 (2 ^ 64 - 1) []))).2.2.2).devs 0).fence_drv.last_seq = 1 := by
    simp [virtio_gpu_fence_emit, worldAB, mkDev]
  refine ⟨?_, rfl, h, ?_⟩
  · simp [fence_inv, worldAB, mkDev]
  · simp only [fence_inv, h, hl]
    decide

/-- C16, amended: the invariant `last_seq <= sync_seq` of a device `d` is
preserved by `virtio_gpu_fence_emit` when the emit fails, or is on another
device, or finds `sync_seq < 2 ^ 64 - 1`; and it is preserved, whenever they
return, by `virtio_gpu_fence_signaled`, `virtio_gpu_fence_wait`,
`virtio_gpu_fence_event_process`, `virtio_gpu_fence_ref` and
`virtio_gpu_fence_unref`. After a successful emit on `d` with
`sync_seq < 2 ^ 64 - 1` the new fence's sequence is greater than `last_seq`, and
`virtio_gpu_fence_seq_signaled` is false for it. -/
theorem ops_preserve_last_le_sync (c : Consts) (w : World) (d : Nat)
    (hinv : fence_inv w d) :
    (∀ (vgdev : Nat) (cmd_hdr : virtio_gpu_ctrl_hdr) (kmalloc : Option Nat),
      (kmalloc = none ∨ vgdev ≠ d ∨ (w.devs vgdev).fence_drv.sync_seq < U64_MOD - 1) →
      fence_inv (virtio_gpu_fence_emit c vgdev cmd_hdr kmalloc w).2.2.2 d) ∧
    (∀ (fence : Option Nat) (b : Bool) (w1 : World),
      virtio_gpu_fence_signaled c fence w = some (b, w1) → fence_inv w1 d) ∧
    (∀ (obs : Nat → List IterObs) (fence : Option Nat) (intr : Bool) (r : Int) (n : Nat)
        (w1 : World),
      virtio_gpu_fence_wait c obs fence intr w = Outcome.returned (r, n, w1) →
      fence_inv w1 d) ∧
    (∀ (vdev last_seq : Nat) (log : List Call) (w1 : World),
      virtio_gpu_fence_event_process c vdev last_seq w = some (log, w1) →
      fence_inv w1 d) ∧
    (∀ (fence h : Option Nat) (w1 : World),
      virtio_gpu_fence_ref fence w = some (h, w1) → fence_inv w1 d) ∧
    (∀ (fence h : Option Nat) (w1 : World),
      virtio_gpu_fence_unref fence w = some (h, w1) → fence_inv w1 d) ∧
    (∀ (cmd_hdr : virtio_gpu_ctrl_hdr) (p : Nat),
      (w.devs d).fence_drv.sync_seq < U64_MOD - 1 →
      ∃ f : virtio_gpu_fence,
        (virtio_gpu_fence_emit c d cmd_hdr (some p) w).2.2.2.mem p = some f ∧
        f.seq = (w.devs d).fence_drv.sync_seq + 1 ∧
        f.seq > ((virtio_gpu_fence_emit c d cmd_hdr (some p) w).2.2.2.devs
                  d).fence_drv.last_seq ∧
        (virtio_gpu_fence_seq_signaled d f.seq
          (virtio_gpu_fence_emit c d cmd_hdr (some p) w).2.2.2).1 = false) := by
  unfold fence_inv at hinv
  have hdevs : ∀ w1 : World, w1.devs = w.devs → fence_inv w1 d := by
    intro w1 h
    simp only [fence_inv, h]
    exact hinv
  refine ⟨?_, ?_, ?_, ?_, ?_, ?_, ?_⟩
  · intro vgdev cmd_hdr kmalloc hcase
    cases kmalloc with
    | none => exact hdevs _ rfl
    | some p =>
      by_cases hd : vgdev = d
      · subst hd
        have hlt : (w.devs vgdev).fence_drv.sync_seq < U64_MOD - 1 := by
          rcases hcase with h | h | h
          · cases h
          · exact absurd rfl h
          · exact h
        have hmod : ((w.devs vgdev).fence_drv.sync_seq + 1) % U64_MOD
            = (w.devs vgdev).fence_drv.sync_seq + 1 := Nat.mod_eq_of_lt (by omega)
        simp only [fence_inv, virtio_gpu_fence_emit, Function.update_same, hmod]
        omega
      · have hne : d ≠ vgdev := fun h => hd h.symm
        simp only [fence_inv, virtio_gpu_fence_emit, Function.update_noteq hne]
        exact hinv
  · intro fence b w1 h
    exact hdevs w1 (fence_signaled_keeps c fence w w1 b h).1
  · intro obs fence intr r n w1 h
    cases fence with
    | none =>
      simp only [virtio_gpu_fence_wait, Outcome.returned.injEq, Prod.mk.injEq] at h
      exact hdevs w1 (by rw [← h.2.2])
    | some p =>
      unfold virtio_gpu_fence_wait at h
      cases hm : w.mem p with
      | none => simp [hm] at h
      | some f =>
        simp only [hm] at h
        cases hres : virtio_gpu_fence_wait_seq c obs f.vgdev f.seq intr with
        | none => simp [hres] at h
        | some res =>
          obtain ⟨r1, n1⟩ := res
          simp only [hres] at h
          by_cases hr : r1 = 0
          · simp only [hr, ne_eq, not_true_eq_false, if_false, Outcome.returned.injEq,
              Prod.mk.injEq] at h
            exact hdevs w1 (by rw [← h.2.2])
          · simp only [ne_eq, hr, not_false_eq_true, if_true, Outcome.returned.injEq,
              Prod.mk.injEq] at h
            exact hdevs w1 (by rw [← h.2.2])
  · intro vdev last_seq log w1 h
    obtain ⟨hc, _⟩ := event_process_keeps c vdev last_seq w w1 log h
    simp only [fence_inv, (hc d).1, (hc d).2.1]
    exact hinv
  · intro fence h w1 hres
    cases fence with
    | none => simp [virtio_gpu_fence_ref] at hres
    | some p =>
      unfold virtio_gpu_fence_ref at hres
      cases hm : w.mem p with
      | none => simp [hm] at hres
      | some f =>
        simp only [hm, Option.some.injEq, Prod.mk.injEq] at hres
        exact hdevs w1 (by rw [← hres.2])
  · intro fence h w1 hres
    cases fence with
    | none =>
      simp only [virtio_gpu_fence_unref, Option.some.injEq, Prod.mk.injEq] at hres
      exact hdevs w1 (by rw [← hres.2])
    | some p =>
      unfold virtio_gpu_fence_unref at hres
      cases hm : w.mem p with
      | none => simp [hm] at hres
      | some f =>
        simp only [hm] at hres
        cases hb : (kref_put f.kref).2 with
        | true =>
          simp only [hb, if_true, Option.some.injEq, Prod.mk.injEq] at hres
          exact hdevs w1 (by rw [← hres.2]; rfl)
        | false =>
          simp only [hb, Bool.false_eq_true, if_false, Option.some.injEq,
            Prod.mk.injEq] at hres
          exact hdevs w1 (by rw [← hres.2])
  · intro cmd_hdr p hlt
    obtain ⟨_, hmem⟩ := emit_some c d cmd_hdr p w
    have hmod : ((w.devs d).fence_drv.sync_seq + 1) % U64_MOD
        = (w.devs d).fence_drv.sync_seq + 1 := Nat.mod_eq_of_lt (by omega)
    rw [hmod] at hmem
    have hlast : ((virtio_gpu_fence_emit c d cmd_hdr (some p) w).2.2.2.devs
        d).fence_drv.last_seq = (w.devs d).fence_drv.last_seq := by
      simp [virtio_gpu_fence_emit]
    refine ⟨_, hmem, rfl, ?_, ?_⟩
    · rw [hlast]
      simp only []
      omega
    · simp only [virtio_gpu_fence_seq_signaled, hlast]
      have : ¬ (w.devs d).fence_drv.last_seq ≥ (w.devs d).fence_drv.sync_seq + 1 := by
        omega
      simp [this]

/-- C16 amended, at a concrete input: with `last_seq = 1` and `sync_seq = 2` an
emit keeps the invariant, the new fence gets sequence 3, and 3 is not
signaled. -/
theorem ops_preserve_last_le_sync_witness :
    fence_inv (worldAB (mkDev 1 2 [])) 0 ∧
    fence_inv (virtio_gpu_fence_emit consts0 0 hdr0 (some 3)
      (worldAB (mkDev 1 2 []))).2.2.2 0 ∧
    ∃ f : virtio_gpu_fence,
      (virtio_gpu_fence_emit consts0 0 hdr0 (some 3)
        (worldAB (mkDev 1 2 []))).2.2.2.mem 3 = some f ∧
      f.seq = 3 ∧
      (virtio_gpu_fence_seq_signaled 0 f.seq
        (virtio_gpu_fence_emit consts0 0 hdr0 (some 3)
          (worldAB (mkDev 1 2 []))).2.2.2).1 = false := by
  have hinv : fence_inv (worldAB (mkDev 1 2 [])) 0 := by
    simp [fence_inv, worldAB, mkDev]
  have hlt : ((worldAB (mkDev 1 2 [])).devs 0).fence_drv.sync_seq < U64_MOD - 1 := by
    decide
  refine ⟨hinv, ?_, ?_⟩
  · exact (ops_preserve_last_le_sync consts0 (worldAB (mkDev 1 2 [])) 0 hinv).1 0 hdr0
      (some 3) (Or.inr (Or.inr hlt))
  · obtain ⟨f, h1, h2, _, h4⟩ :=
      (ops_preserve_last_le_sync consts0 (worldAB (mkDev 1 2 [])) 0 hinv).2.2.2.2.2.2
        hdr0 3 hlt
    exact ⟨f, h1, h2, h4⟩

/-- C17: `virtio_gpu_fence_emit` returns a non-zero value exactly when the
allocation fails; it then returns `-ENOMEM`, which is -12, leaves `NULL` in the
out parameter, and leaves the command header and the whole world (so
`sync_seq`) as they were. When the allocation succeeds it returns 0. -/
theorem emit_fails_only_on_alloc_failure (c : Consts) (vgdev : Nat)
    (cmd_hdr : virtio_gpu_ctrl_hdr) (kmalloc : Option Nat) (w : World) :
    ((virtio_gpu_fence_emit c vgdev cmd_hdr kmalloc w).1 ≠ 0 ↔ kmalloc = none) ∧
    virtio_gpu_fence_emit c vgdev cmd_hdr none w = (-ENOMEM, cmd_hdr, none, w) ∧
    virtio_gpu_fence_emit c vgdev cmd_hdr none w = (-12, cmd_hdr, none, w) ∧
    (∀ p, (virtio_gpu_fence_emit c vgdev cmd_hdr (some p) w).1 = 0) := by
  refine ⟨?_, rfl, rfl, fun _ => rfl⟩
  cases kmalloc with
  | none => simp [virtio_gpu_fence_emit, ENOMEM]
  | some p => simp [virtio_gpu_fence_emit]

/-- C18: if the first loop test of `virtio_gpu_fence_wait_seq` finds
`target_seq <= last_seq`, the function returns 0 with no call of the wait
primitive. `virtio_gpu_fence_wait` on a fence that holds the sentinel waits for
the sentinel as its target: it returns with no call of the wait primitive
exactly when the sentinel is at most the `last_seq` of the first loop test, it
then returns 0 and leaves the fence as it was; with the sentinel 0 this is the
case for every `last_seq`. -/
theorem wait_satisfied_never_blocks (c : Consts) (obs : Nat → List IterObs)
    (vgdev target_seq : Nat) (intr : Bool) (o : IterObs) (rest : List IterObs)
    (hobs : obs vgdev = o :: rest) :
    (target_seq ≤ o.last_seq_cond →
      virtio_gpu_fence_wait_seq c obs vgdev target_seq intr = some (0, 0)) ∧
    (∀ (p : Nat) (f : virtio_gpu_fence) (w : World),
      w.mem p = some f → f.vgdev = vgdev →
      f.seq = c.VIRTIO_GPU_FENCE_SIGNALED_SEQ →
      ((c.VIRTIO_GPU_FENCE_SIGNALED_SEQ ≤ o.last_seq_cond →
          ∃ w1 : World,
            virtio_gpu_fence_wait c obs (some p) intr w = Outcome.returned (0, 0, w1) ∧
            w1.mem p = some f ∧ w1.devs = w.devs) ∧
       (∀ (r : Int) (w1 : World),
          virtio_gpu_fence_wait c obs (some p) intr w = Outcome.returned (r, 0, w1) →
          c.VIRTIO_GPU_FENCE_SIGNALED_SEQ ≤ o.last_seq_cond) ∧
       (c.VIRTIO_GPU_FENCE_SIGNALED_SEQ = 0 →
          ∃ w1 : World,
            virtio_gpu_fence_wait c obs (some p) intr w
              = Outcome.returned (0, 0, w1)))) := by
  have hexit : ∀ t, t ≤ o.last_seq_cond →
      virtio_gpu_fence_wait_seq c obs vgdev t intr = some (0, 0) := by
    intro t ht
    unfold virtio_gpu_fence_wait_seq
    rw [hobs, wait_seq_loop, (wait_seq_iter_exit c t intr o).mpr ht]
  have hwaits : ∀ t r, virtio_gpu_fence_wait_seq c obs vgdev t intr = some (r, 0) →
      t ≤ o.last_seq_cond := by
    intro t r h
    unfold virtio_gpu_fence_wait_seq at h
    rw [hobs, wait_seq_loop] at h
    cases hstep : wait_seq_iter c t intr o with
    | exit => exact (wait_seq_iter_exit c t intr o).mp hstep
    | ret r1 => simp [hstep] at h
    | again =>
      simp only [hstep] at h
      obtain ⟨pre, o1, post, _, _, hend⟩ :=
        wait_seq_loop_some c t intr rest (0 + 1) r 0 h
      rcases hend with ⟨_, _, h3⟩ | ⟨_, h3⟩ <;> omega
  refine ⟨hexit target_seq, ?_⟩
  intro p f w hmem hdev hseq
  have hret : c.VIRTIO_GPU_FENCE_SIGNALED_SEQ ≤ o.last_seq_cond →
      ∃ w1 : World,
        virtio_gpu_fence_wait c obs (some p) intr w = Outcome.returned (0, 0, w1) ∧
        w1.mem p = some f ∧ w1.devs = w.devs := by
    intro hle
    have h := hexit f.seq (by rw [hseq]; exact hle)
    rw [← hdev] at h
    let f1 : virtio_gpu_fence := { f with seq := c.VIRTIO_GPU_FENCE_SIGNALED_SEQ }
    refine ⟨{ w with mem := Function.update w.mem p (some f1) }, ?_, ?_, rfl⟩
    · simp [virtio_gpu_fence_wait, hmem, h, f1]
    · simp only [Function.update_same, f1, ← hseq]
  refine ⟨hret, ?_, ?_⟩
  · intro r w1 h
    unfold virtio_gpu_fence_wait at h
    simp only [hmem] at h
    cases hres : virtio_gpu_fence_wait_seq c obs f.vgdev f.seq intr with
    | none => simp [hres] at h
    | some res =>
      obtain ⟨r1, n1⟩ := res
      simp only [hres] at h
      have hn : n1 = 0 := by
        by_cases hr : r1 = 0
        · simp only [hr, ne_eq, not_true_eq_false, if_false, Outcome.returned.injEq,
            Prod.mk.injEq] at h
          exact h.2.1
        · simp only [ne_eq, hr, not_false_eq_true, if_true, Outcome.returned.injEq,
            Prod.mk.injEq] at h
          exact h.2.1
      rw [hn, hdev] at hres
      have := hwaits f.seq r1 hres
      rw [hseq] at this
      exact this
  · intro h0
    obtain ⟨w1, h1, _⟩ := hret (by rw [h0]; exact Nat.zero_le _)
    exact ⟨w1, h1⟩

/-- C18 at a concrete input: with the sentinel 0, a wait on a fence that holds
the sentinel returns 0 at once, although `last_seq` is 0 and the wait primitive
would time out for ever. -/
theorem wait_satisfied_never_blocks_witness :
    (fun _ : Nat => [lockupObs]) 0 = lockupObs :: [] ∧
    virtio_gpu_fence_wait_seq consts0 (fun _ => [lockupObs]) 0 0 false = some (0, 0) ∧
    worldA_waited.mem 1 = some { kref := 1, vgdev := 0, seq := 0 } ∧
    ∃ w1 : World,
      virtio_gpu_fence_wait consts0 (fun _ => [lockupObs]) (some 1) false worldA_waited
        = Outcome.returned (0, 0, w1) :=
  ⟨rfl,
   (wait_satisfied_never_blocks consts0 (fun _ => [lockupObs]) 0 0 false lockupObs []
      rfl).1 (by decide),
   rfl,
   ((wait_satisfied_never_blocks consts0 (fun _ => [lockupObs]) 0 0 false lockupObs []
      rfl).2 1 { kref := 1, vgdev := 0, seq := 0 } worldA_waited rfl rfl rfl).2.2 rfl⟩

end VirtgpuFence
